import Mathlib

/-!
Verification of the halapi-js client library (src/client.ts, src/config.ts,
src/types.ts) against its design specification.

The development shallowly embeds the parts of the code the specification
talks about:

* `Json`, `jsonParse`, `jsonStringify` — model of the JavaScript
  `JSON.parse` / `JSON.stringify` builtins as used by the code.  Numbers
  are modelled as integers (the specification's scenarios only use
  integral numbers; floating point is out of scope), and `jsonParse`
  accepts leading zeros where `JSON.parse` would not; no claim depends on
  either point.  Strings are modelled as `List Char`.
* `utf8Step` / `utf8DecodeChunk` — model of the platform `TextDecoder`
  with `stream: true` (client.ts:289,297): an incremental UTF-8 decoder
  that carries an incomplete trailing sequence over to the next chunk and
  never flushes it at end of stream (the code never calls a final
  `decode()`), emitting U+FFFD for invalid complete sequences.
* `splitOnNl`, `processLine`, `processChunk`, `runChunks`,
  `chatStreamEvents` — the SSE decode loop of `chatStream`
  (client.ts:292-314) on byte chunks.
* `chatStreamModel`, `getConversations`, `getConversation`,
  `getBookArtifacts`, `getMusicArtifacts`, `getBookPresentations` —
  the client operations around the transport, taking the transport's
  response as an explicit parameter.
-/

inductive Json where
  | null : Json
  | bool (b : Bool) : Json
  | num (n : Int) : Json
  | str (s : List Char) : Json
  | arr (elems : List Json) : Json
  | obj (members : List (List Char × Json)) : Json

/-- JSON whitespace per RFC 8259 / `JSON.parse`. -/
def isJsonWs (c : Char) : Bool :=
  c = ' ' || c = '\t' || c = '\n' || c = '\r'

def hexVal (c : Char) : Option Nat :=
  if 48 ≤ c.toNat ∧ c.toNat ≤ 57 then some (c.toNat - 48)
  else if 97 ≤ c.toNat ∧ c.toNat ≤ 102 then some (c.toNat - 87)
  else if 65 ≤ c.toNat ∧ c.toNat ≤ 70 then some (c.toNat - 55)
  else none

def parseStringBody : List Char → Option (List Char × List Char)
  | [] => none
  | c :: r =>
    if c = '"' then some ([], r)
    else if c = '\\' then
      match r with
      | [] => none
      | e :: r2 =>
        if e = '"' then (parseStringBody r2).map (fun p => ('"' :: p.1, p.2))
        else if e = '\\' then (parseStringBody r2).map (fun p => ('\\' :: p.1, p.2))
        else if e = '/' then (parseStringBody r2).map (fun p => ('/' :: p.1, p.2))
        else if e = 'b' then (parseStringBody r2).map (fun p => ('\x08' :: p.1, p.2))
        else if e = 'f' then (parseStringBody r2).map (fun p => ('\x0c' :: p.1, p.2))
        else if e = 'n' then (parseStringBody r2).map (fun p => ('\n' :: p.1, p.2))
        else if e = 'r' then (parseStringBody r2).map (fun p => ('\r' :: p.1, p.2))
        else if e = 't' then (parseStringBody r2).map (fun p => ('\t' :: p.1, p.2))
        else if e = 'u' then
          match r2 with
          | h1 :: h2 :: h3 :: h4 :: r3 =>
            match hexVal h1, hexVal h2, hexVal h3, hexVal h4 with
            | some a, some b, some c3, some d =>
              (parseStringBody r3).map (fun p =>
                (Char.ofNat (a * 4096 + b * 256 + c3 * 16 + d) :: p.1, p.2))
            | _, _, _, _ => none
          | _ => none
        else none
    else if c.toNat < 32 then none
    else (parseStringBody r).map (fun p => (c :: p.1, p.2))

def readDigits (acc : Nat) : List Char → Nat × List Char
  | [] => (acc, [])
  | c :: r => if c.isDigit then readDigits (acc * 10 + (c.toNat - 48)) r else (acc, c :: r)

def parseNumberFrom (c : Char) (r : List Char) : Option (Json × List Char) :=
  if c = '-' then
    match r with
    | d :: r2 =>
      if d.isDigit then
        let p := readDigits (d.toNat - 48) r2
        some (.num (-(p.1 : Int)), p.2)
      else none
    | [] => none
  else if c.isDigit then
    let p := readDigits (c.toNat - 48) r
    some (.num (p.1 : Int), p.2)
  else none

mutual

def parseValue : Nat → List Char → Option (Json × List Char)
  | 0, _ => none
  | fuel + 1, s =>
    match s.dropWhile isJsonWs with
    | [] => none
    | c :: r =>
      if c = 'n' then
        if r.take 3 = ['u', 'l', 'l'] then some (.null, r.drop 3) else none
      else if c = 't' then
        if r.take 3 = ['r', 'u', 'e'] then some (.bool true, r.drop 3) else none
      else if c = 'f' then
        if r.take 4 = ['a', 'l', 's', 'e'] then some (.bool false, r.drop 4) else none
      else if c = '"' then
        match parseStringBody r with
        | some (content, rest) => some (.str content, rest)
        | none => none
      else if c = '[' then parseArrayTail fuel r
      else if c = '{' then parseObjectTail fuel r
      else parseNumberFrom c r

def parseArrayTail : Nat → List Char → Option (Json × List Char)
  | 0, _ => none
  | fuel + 1, s =>
    match s.dropWhile isJsonWs with
    | ']' :: r => some (.arr [], r)
    | _ =>
      match parseValue fuel s with
      | some (v, rest) =>
        match parseArrayItems fuel rest with
        | some (vs, rest2) => some (.arr (v :: vs), rest2)
        | none => none
      | none => none

def parseArrayItems : Nat → List Char → Option (List Json × List Char)
  | 0, _ => none
  | fuel + 1, s =>
    match s.dropWhile isJsonWs with
    | ',' :: r =>
      match parseValue fuel r with
      | some (v, rest) =>
        match parseArrayItems fuel rest with
        | some (vs, rest2) => some (v :: vs, rest2)
        | none => none
      | none => none
    | ']' :: r => some ([], r)
    | _ => none

def parseObjectTail : Nat → List Char → Option (Json × List Char)
  | 0, _ => none
  | fuel + 1, s =>
    match s.dropWhile isJsonWs with
    | '}' :: r => some (.obj [], r)
    | _ =>
      match parseMember fuel s with
      | some (kv, rest) =>
        match parseObjectItems fuel rest with
        | some (kvs, rest2) => some (.obj (kv :: kvs), rest2)
        | none => none
      | none => none

def parseMember : Nat → List Char → Option ((List Char × Json) × List Char)
  | 0, _ => none
  | fuel + 1, s =>
    match s.dropWhile isJsonWs with
    | '"' :: r =>
      match parseStringBody r with
      | some (key, rest) =>
        match rest.dropWhile isJsonWs with
        | ':' :: r2 =>
          match parseValue fuel r2 with
          | some (v, rest2) => some ((key, v), rest2)
          | none => none
        | _ => none
      | none => none
    | _ => none

def parseObjectItems : Nat → List Char → Option (List (List Char × Json) × List Char)
  | 0, _ => none
  | fuel + 1, s =>
    match s.dropWhile isJsonWs with
    | ',' :: r =>
      match parseMember fuel r with
      | some (kv, rest) =>
        match parseObjectItems fuel rest with
        | some (kvs, rest2) => some (kv :: kvs, rest2)
        | none => none
      | none => none
    | '}' :: r => some ([], r)
    | _ => none

end

/-- Model of `JSON.parse` (restricted to integer numbers): parses the whole
string, allowing surrounding whitespace, and fails on any trailing garbage. -/
def jsonParse (s : List Char) : Option Json :=
  match parseValue (s.length + 1) s with
  | some (v, rest) => if rest.dropWhile isJsonWs = [] then some v else none
  | none => none

-- serializer
def hexDigitChar (n : Nat) : Char :=
  match n with
  | 0 => '0' | 1 => '1' | 2 => '2' | 3 => '3' | 4 => '4'
  | 5 => '5' | 6 => '6' | 7 => '7' | 8 => '8' | 9 => '9'
  | 10 => 'a' | 11 => 'b' | 12 => 'c' | 13 => 'd' | 14 => 'e' | _ => 'f'

def escapeChar (c : Char) : List Char :=
  if c = '"' then ['\\', '"']
  else if c = '\\' then ['\\', '\\']
  else if c = '\x08' then ['\\', 'b']
  else if c = '\x0c' then ['\\', 'f']
  else if c = '\n' then ['\\', 'n']
  else if c = '\r' then ['\\', 'r']
  else if c = '\t' then ['\\', 't']
  else if c.toNat < 32 then
    ['\\', 'u', '0', '0', hexDigitChar (c.toNat / 16), hexDigitChar (c.toNat % 16)]
  else [c]

def natDigitsAux : Nat → Nat → List Char
  | 0, _ => []
  | fuel + 1, n =>
    if n < 10 then [hexDigitChar n]
    else natDigitsAux fuel (n / 10) ++ [hexDigitChar (n % 10)]

def natDigits (n : Nat) : List Char := natDigitsAux (n + 1) n

def stringifyInt (n : Int) : List Char :=
  if n < 0 then '-' :: natDigits n.natAbs else natDigits n.toNat

def stringifyStr (s : List Char) : List Char :=
  '"' :: (s.map escapeChar).flatten ++ ['"']

/-- The characters of a literal keyword of the JSON grammar. -/
def keywordChars (s : String) : List Char := s.toList

mutual

def jsonStringify : Json → List Char
  | .null => keywordChars "null"
  | .bool true => keywordChars "true"
  | .bool false => keywordChars "false"
  | .num n => stringifyInt n
  | .str s => stringifyStr s
  | .arr xs => '[' :: stringifyArr xs ++ [']']
  | .obj kvs => '{' :: stringifyObj kvs ++ ['}']

def stringifyArr : List Json → List Char
  | [] => []
  | [x] => jsonStringify x
  | x :: xs => jsonStringify x ++ ',' :: stringifyArr xs

def stringifyObj : List (List Char × Json) → List Char
  | [] => []
  | [(k, v)] => stringifyStr k ++ ':' :: jsonStringify v
  | (k, v) :: kvs => stringifyStr k ++ ':' :: jsonStringify v ++ ',' :: stringifyObj kvs

end

/-- No digit at the head of `rest` (so a number parse cannot overrun). -/
def NoDigitHead (rest : List Char) : Prop :=
  ∀ c, rest.head? = some c → c.isDigit = false

-- ===== stringify head facts and dispatch =====
mutual
def sizeJ : Json → Nat
  | .null => 1
  | .bool _ => 1
  | .num _ => 1
  | .str _ => 1
  | .arr xs => 1 + sizeL xs
  | .obj kvs => 1 + sizeO kvs
def sizeL : List Json → Nat
  | [] => 0
  | x :: xs => sizeJ x + sizeL xs
def sizeO : List (List Char × Json) → Nat
  | [] => 0
  | kv :: kvs => sizeJ kv.2 + sizeO kvs
end

/-- `,`-prefixed encodings of the later elements of an array. -/
def stringifyItems (xs : List Json) : List Char :=
  (xs.map (fun x => ',' :: jsonStringify x)).flatten

/-- `,`-prefixed encodings of the later members of an object. -/
def stringifyOItems (kvs : List (List Char × Json)) : List Char :=
  (kvs.map (fun kv => ',' :: (stringifyStr kv.1 ++ ':' :: jsonStringify kv.2))).flatten

-- ===== parser roundtrip: composite values =====
/-- Roundtrip property of a single JSON value at every sufficient fuel. -/
def PVp (v : Json) : Prop :=
  ∀ fuel rest, (jsonStringify v).length ≤ fuel → NoDigitHead rest →
    parseValue fuel (jsonStringify v ++ rest) = some (v, rest)

def utf8Need (b : Nat) : Nat :=
  if b < 0x80 then 1
  else if 0xC2 ≤ b ∧ b ≤ 0xDF then 2
  else if 0xE0 ≤ b ∧ b ≤ 0xEF then 3
  else if 0xF0 ≤ b ∧ b ≤ 0xF4 then 4
  else 0

def utf8Combine : List Nat → Nat
  | [b0] => b0
  | [b0, b1] => (b0 - 0xC0) * 64 + (b1 - 0x80)
  | [b0, b1, b2] => (b0 - 0xE0) * 4096 + (b1 - 0x80) * 64 + (b2 - 0x80)
  | [b0, b1, b2, b3] =>
      (b0 - 0xF0) * 262144 + (b1 - 0x80) * 4096 + (b2 - 0x80) * 64 + (b3 - 0x80)
  | _ => 0xFFFD

def utf8DecodeSeq (bytes : List Nat) : Char :=
  let n := utf8Combine bytes
  if bytes.length = 1 then Char.ofNat n
  else if bytes.length = 2 then Char.ofNat n
  else if bytes.length = 3 then
    if 0x800 ≤ n ∧ (n < 0xD800 ∨ 0xDFFF < n) then Char.ofNat n else '�'
  else if bytes.length = 4 then
    if 0x10000 ≤ n ∧ n ≤ 0x10FFFF then Char.ofNat n else '�'
  else '�'

def utf8StepFresh (b : Nat) : List Nat × List Char :=
  if utf8Need b = 1 then ([], [Char.ofNat b])
  else if utf8Need b = 0 then ([], ['�'])
  else ([b], [])

def utf8Step (pending : List Nat) (b : Nat) : List Nat × List Char :=
  match pending with
  | [] => utf8StepFresh b
  | p0 :: _ =>
    if 0x80 ≤ b ∧ b ≤ 0xBF then
      if pending.length + 1 = utf8Need p0 then ([], [utf8DecodeSeq (pending ++ [b])])
      else (pending ++ [b], [])
    else
      let s := utf8StepFresh b
      (s.1, '�' :: s.2)

def utf8DecodeChunk (pending : List Nat) : List Nat → List Nat × List Char
  | [] => (pending, [])
  | b :: bs =>
    let s := utf8Step pending b
    let r := utf8DecodeChunk s.1 bs
    (r.1, s.2 ++ r.2)

def utf8EncodeChar (c : Char) : List Nat :=
  let n := c.toNat
  if n < 0x80 then [n]
  else if n < 0x800 then [0xC0 + n / 64, 0x80 + n % 64]
  else if n < 0x10000 then [0xE0 + n / 4096, 0x80 + (n / 64) % 64, 0x80 + n % 64]
  else [0xF0 + n / 262144, 0x80 + (n / 4096) % 64, 0x80 + (n / 64) % 64, 0x80 + n % 64]

def utf8Encode (s : List Char) : List Nat := (s.map utf8EncodeChar).flatten

def consFirst (c : Char) : List (List Char) → List (List Char)
  | [] => [[c]]
  | l :: ls => (c :: l) :: ls

/-- Model of JavaScript `buffer.split('\n')` on `List Char`. -/
def splitOnNl : List Char → List (List Char)
  | [] => [[]]
  | c :: rest =>
    if c = '\n' then [] :: splitOnNl rest
    else consFirst c (splitOnNl rest)

/-- Char-at-a-time reformulation of the buffer/split loop: returns the
complete lines and the final (unterminated) buffer. -/
def lineFold (buf : List Char) : List Char → List (List Char) × List Char
  | [] => ([], buf)
  | c :: cs =>
    if c = '\n' then
      let r := lineFold [] cs
      (buf :: r.1, r.2)
    else lineFold (buf ++ [c]) cs

/-!
The SSE decode loop of `chatStream` (client.ts:292-314).

```
const decoder = new TextDecoder()
let buffer = ''
try {
  while (true) {
    const { done, value } = await reader.read()
    if (done) break
    buffer += decoder.decode(value, { stream: true })
    const lines = buffer.split('\n')
    buffer = lines.pop() ?? ''
    for (const line of lines) {
      if (line.startsWith('data: ')) {
        try {
          const event = JSON.parse(line.slice(6)) as SSEEvent
          yield event
        } catch { console.warn(...) }
      }
    }
  }
} finally {
  reader.releaseLock()
}
```
-/

/-- The six-character line marker `data: ` of client.ts:302. -/
def dataTag : List Char := ['d', 'a', 't', 'a', ':', ' ']

/-- The body of the `for (const line of lines)` loop (client.ts:301-309):
a line carrying the `data: ` marker has the marker stripped and the
remainder JSON-parsed; a parse failure is caught (log-only) and yields
nothing, and a line without the marker yields nothing. -/
def processLine (line : List Char) : Option Json :=
  if line.take 6 = dataTag then jsonParse (line.drop 6) else none

/-- The two pieces of loop state of client.ts:289-290: the `TextDecoder`'s
carried-over incomplete UTF-8 sequence and the `buffer` string. -/
structure DecoderState where
  pending : List Nat
  buffer : List Char

/-- One iteration of the read loop (client.ts:297-310) on one byte chunk:
decode the bytes incrementally, append to the buffer, split on `'\n'`,
keep the last segment as the new buffer (`lines.pop() ?? ''`) and decode
the complete lines in order. -/
def processChunk (st : DecoderState) (chunk : List Nat) : DecoderState × List Json :=
  let d := utf8DecodeChunk st.pending chunk
  let lines := splitOnNl (st.buffer ++ d.2)
  (⟨d.1, (lines.getLast?).getD []⟩, lines.dropLast.filterMap processLine)

/-- The whole read loop over the successive chunks delivered by the
reader, collecting every yielded event in order. -/
def runChunks (st : DecoderState) : List (List Nat) → DecoderState × List Json
  | [] => (st, [])
  | ch :: rest =>
    let p := processChunk st ch
    let r := runChunks p.1 rest
    (r.1, p.2 ++ r.2)

/-- All events `chatStream` yields for the given byte chunks; the residual
decoder state is discarded when `done` is signalled (client.ts:295). -/
def chatStreamEvents (chunks : List (List Nat)) : List Json :=
  (runChunks ⟨[], []⟩ chunks).2

/-- Events produced by the line machinery on fully decoded text. -/
def decodeTextEvents (t : List Char) : List Json :=
  (lineFold [] t).1.filterMap processLine

/-- A well-formed SSE record for the event `e`: the line `data: ⟨json⟩\n`
whose payload parses to `e`. -/
def SSERecord (r : List Char) (e : Json) : Prop :=
  ∃ j, r = dataTag ++ j ++ ['\n'] ∧ '\n' ∉ j ∧ jsonParse j = some e

/-- A `data: ` record whose payload parses to `oe` (`none` = malformed
payload). -/
def SSERecordOpt (r : List Char) (oe : Option Json) : Prop :=
  ∃ j, r = dataTag ++ j ++ ['\n'] ∧ '\n' ∉ j ∧ jsonParse j = oe

/-!
Client operations (client.ts:189-478) around the transport.  Each model
takes the transport's response as an explicit parameter: `tokenValid`
models `isConfigValid` of the resolved configuration (config.ts:73-75),
and the response carries the status/header/body data the operation reads.
Errors thrown with `throw new HalapiError(...)` are modelled by
`ClientError.halapi`; errors of any other class (the `throw new Error`
of client.ts:364,391 and the `SyntaxError` a failing `response.json()`
raises) by `ClientError.generic`.
-/

/-- The `HalapiError` class (client.ts:123-131): a message and an optional
numeric status code. -/
structure HalapiError where
  message : List Char
  statusCode : Option Nat
deriving Repr, DecidableEq

/-- An error reaching the caller: either a `HalapiError` or an error of
any other class (`Error`, `SyntaxError`). -/
inductive ClientError where
  | halapi (e : HalapiError)
  | generic (message : List Char)
deriving Repr, DecidableEq

def ClientError.isHalapi : ClientError → Bool
  | .halapi _ => true
  | .generic _ => false

/-- Field lookup in a parsed JSON object (`obj.field` access on a
`JSON.parse` result). -/
def jsonField (v : Json) (k : List Char) : Option Json :=
  match v with
  | .obj kvs => (kvs.find? (fun p => p.1 = k)).map (fun p => p.2)
  | _ => none

/-- `handleErrorResponse` (client.ts:209-220): derive the message from the
response JSON's `error.message` when it parses to a non-empty string
(the code's truthiness test, restricted here to strings), else use
the fallback of context, colon, HTTP and the status number; always carry the status code. -/
def handleErrorResponse (status : Nat) (bodyText context : List Char) : HalapiError :=
  let fallback := context ++ (": HTTP ".toList) ++ natDigits status
  let message :=
    match jsonParse bodyText with
    | some v =>
      match jsonField v ("error".toList) with
      | some ev =>
        match jsonField ev ("message".toList) with
        | some (.str m) => if m = [] then fallback else context ++ (": ".toList) ++ m
        | _ => fallback
      | none => fallback
    | none => fallback
  ⟨message, some status⟩

/-- `response.headers.get(name)` on the captured header list. -/
def headersGet (headers : List (List Char × List Char)) (name : List Char) :
    Option (List Char) :=
  (headers.find? (fun p => p.1 = name)).map (fun p => p.2)

/-- The terminal value of `chatStream` (client.ts:113-118,316). -/
structure ChatStreamResult where
  conversationId : Option (List Char)
  messageId : Option (List Char)
deriving Repr, DecidableEq

/-- The transport's response to the streaming request: status, headers and
a byte-chunk body (`none` models a non-readable body,
client.ts:284-287). -/
structure StreamResponse where
  ok : Bool
  status : Nat
  headers : List (List Char × List Char)
  body : Option (List (List Nat))

inductive ChatStreamOutcome where
  | failure (e : HalapiError)
  | success (events : List Json) (result : ChatStreamResult)

def xConversationIdHeader : List Char := "X-Conversation-Id".toList

def xMessageIdHeader : List Char := "X-Message-Id".toList

/-- `chatStream` (client.ts:255-317): configuration check, HTTP error
mapping, header capture, body check, decode loop, terminal result.
`errBodyText` is the text `handleErrorResponse` would read from a
non-2xx response body. -/
def chatStreamModel (tokenValid : Bool) (resp : StreamResponse)
    (errBodyText : List Char) : ChatStreamOutcome :=
  if ¬tokenValid then .failure ⟨"API token not configured".toList, none⟩
  else if ¬resp.ok then
    .failure (handleErrorResponse resp.status errBodyText ("Chat stream failed".toList))
  else
    match resp.body with
    | none => .failure ⟨"Response body is not readable".toList, none⟩
    | some chunks =>
      .success (chatStreamEvents chunks)
        ⟨headersGet resp.headers xConversationIdHeader,
          headersGet resp.headers xMessageIdHeader⟩

/-- The transport's response to a non-streaming request, with the body
already read as text (`response.text()` / what `response.json()`
parses). -/
structure SimpleResponse where
  ok : Bool
  status : Nat
  bodyText : List Char

/-- `text.trim() === ''` (also covers `!text`): every character is
whitespace. -/
def isBlank (l : List Char) : Bool := l.all isJsonWs

/-- The object getConversations builds for an empty response body
(client.ts:347-358); `now` stands for `new Date().toISOString()`. -/
def emptyConversationsResponse (now : List Char) : Json :=
  .obj [("success".toList, .bool true),
    ("conversations".toList, .arr []),
    ("metadata".toList, .obj [("requestId".toList, .str []),
      ("timestamp".toList, .str now),
      ("count".toList, .num 0),
      ("hasMore".toList, .bool false)])]

/-- `getConversations` (client.ts:326-366).  On a parse failure of a
non-blank 2xx body it throws a plain `Error` (client.ts:364), not a
`HalapiError`. -/
def getConversations (tokenValid : Bool) (resp : SimpleResponse) (now : List Char) :
    Except ClientError Json :=
  if ¬tokenValid then .error (.halapi ⟨"API token not configured".toList, none⟩)
  else if ¬resp.ok then
    .error (.halapi (handleErrorResponse resp.status resp.bodyText
      ("Failed to fetch conversations".toList)))
  else if isBlank resp.bodyText then .ok (emptyConversationsResponse now)
  else
    match jsonParse resp.bodyText with
    | some v => .ok v
    | none => .error (.generic ("Invalid JSON response from API".toList))

/-- `getConversation` (client.ts:374-393); the parse-failure throw of
client.ts:391 is a plain `Error`. -/
def getConversation (tokenValid : Bool) (resp : SimpleResponse) :
    Except ClientError Json :=
  if ¬tokenValid then .error (.halapi ⟨"API token not configured".toList, none⟩)
  else if ¬resp.ok then
    .error (.halapi (handleErrorResponse resp.status resp.bodyText
      ("Failed to fetch conversation".toList)))
  else
    match jsonParse resp.bodyText with
    | some v => .ok v
    | none => .error (.generic ("Invalid JSON response from API".toList))

/-- `getBookArtifacts` (client.ts:401-414): `response.json()` raises a
platform `SyntaxError` on an unparseable body. -/
def getBookArtifacts (tokenValid : Bool) (resp : SimpleResponse) :
    Except ClientError Json :=
  if ¬tokenValid then .error (.halapi ⟨"API token not configured".toList, none⟩)
  else if ¬resp.ok then
    .error (.halapi (handleErrorResponse resp.status resp.bodyText
      ("Failed to fetch book artifacts".toList)))
  else
    match jsonParse resp.bodyText with
    | some v => .ok v
    | none => .error (.generic ("SyntaxError".toList))

/-- `getMusicArtifacts` (client.ts:422-435). -/
def getMusicArtifacts (tokenValid : Bool) (resp : SimpleResponse) :
    Except ClientError Json :=
  if ¬tokenValid then .error (.halapi ⟨"API token not configured".toList, none⟩)
  else if ¬resp.ok then
    .error (.halapi (handleErrorResponse resp.status resp.bodyText
      ("Failed to fetch music artifacts".toList)))
  else
    match jsonParse resp.bodyText with
    | some v => .ok v
    | none => .error (.generic ("SyntaxError".toList))

/-- Whether an accessor failed before the transport was invoked
(`localError`, no request sent) or the request went out. -/
inductive AccessorOutcome where
  | localError (e : HalapiError)
  | sent (result : Except ClientError Json)

/-- `getBookPresentations` (client.ts:443-468): the list-length checks of
client.ts:444-449 run before `resolveConfig` and before any request. -/
def getBookPresentations (isbn13s : List (List Char)) (tokenValid : Bool)
    (resp : SimpleResponse) : AccessorOutcome :=
  if isbn13s.isEmpty then .localError ⟨"At least one ISBN-13 is required".toList, none⟩
  else if 100 < isbn13s.length then
    .localError ⟨"Maximum 100 ISBN-13s allowed per request".toList, none⟩
  else if ¬tokenValid then .localError ⟨"API token not configured".toList, none⟩
  else .sent (
    if ¬resp.ok then
      .error (.halapi (handleErrorResponse resp.status resp.bodyText
        ("Failed to fetch book presentations".toList)))
    else
      match jsonParse resp.bodyText with
      | some v => .ok v
      | none => .error (.generic ("SyntaxError".toList)))

/-- The request body of `chatStream` (client.ts:268-273) as the JSON
object passed to `JSON.stringify`: fields whose value is `undefined`
(absent options) are omitted from the serialized object, and
`externalUserId` defaults to `'sdk-user'` via `??`. -/
structure ChatStreamOptions where
  query : List Char
  conversationId : Option (List Char)
  externalUserId : Option (List Char)
  metadata : Option Json

def chatRequestJson (options : ChatStreamOptions) : Json :=
  .obj ([("query".toList, Json.str options.query)] ++
    (match options.conversationId with
     | some c => [("conversationId".toList, Json.str c)]
     | none => []) ++
    [("externalUserId".toList, Json.str (options.externalUserId.getD "sdk-user".toList))] ++
    (match options.metadata with
     | some m => [("metadata".toList, m)]
     | none => []))

/-!
Exit-path model for `chatStream`'s decode loop (client.ts:292-314).  The
loop body runs inside `try ... finally { reader.releaseLock() }`; an
async generator runs its `finally` when the loop ends (`done`), when
`reader.read()` rejects (e.g. on cancellation via the abort signal), and
when the consumer abandons iteration early (the `for await` loop's
`break` invokes the generator's `return()`).  `streamBody` computes what
the body does on each of those paths: `readFails` says the read after
the given chunks rejects instead of signalling `done`; `limit = some n`
says the consumer stops after receiving `n` events.
-/

inductive StreamExit where
  | completed
  | raised
  | stopped
deriving Repr, DecidableEq

def streamBody (st : DecoderState) (limit : Option Nat) :
    List (List Nat) → Bool → List Json × StreamExit
  | [], readFails => ([], if readFails then .raised else .completed)
  | ch :: rest, readFails =>
    let p := processChunk st ch
    match limit with
    | none =>
      let r := streamBody p.1 none rest readFails
      (p.2 ++ r.1, r.2)
    | some n =>
      if n ≤ p.2.length then (p.2.take n, .stopped)
      else
        let r := streamBody p.1 (some (n - p.2.length)) rest readFails
        (p.2 ++ r.1, r.2)

/-- One full run: the events delivered to the consumer, the number of
times the reader lock is released (the `finally` of client.ts:312-314
runs exactly once, on whichever path the body exits), and the exit
path taken. -/
def runStream (chunks : List (List Nat)) (readFails : Bool) (limit : Option Nat) :
    List Json × Nat × StreamExit :=
  let b := streamBody ⟨[], []⟩ limit chunks readFails
  (b.1, 1, b.2)

-- ===== roundtrip development =====
theorem charOfNat_eq (c : Char) (n : Nat) (h : n = c.toNat) : Char.ofNat n = c := by
  rw [h]
  exact Char.ofNat_toNat c

theorem hexVal_hexDigitChar (n : Nat) (h : n < 16) :
    hexVal (hexDigitChar n) = some n := by
  interval_cases n <;> rfl

theorem psb_literal (c : Char) (r : List Char) (h1 : ¬c = '"') (h2 : ¬c = '\\')
    (h3 : ¬c.toNat < 32) :
    parseStringBody (c :: r) = (parseStringBody r).map (fun p => (c :: p.1, p.2)) := by
  rw [parseStringBody.eq_def]
  simp [h1, h2, h3]

theorem psb_roundtrip (s : List Char) : ∀ rest : List Char,
    parseStringBody ((s.map escapeChar).flatten ++ '"' :: rest) = some (s, rest) := by
  induction s with
  | nil =>
    intro rest
    simp only [List.map_nil, List.flatten_nil, List.nil_append]
    rw [parseStringBody.eq_def]
    simp
  | cons c s' ih =>
    intro rest
    show parseStringBody ((escapeChar c ++ (s'.map escapeChar).flatten) ++ '"' :: rest) = _
    rw [List.append_assoc]
    by_cases h1 : c = '"'
    · subst h1
      rw [show escapeChar '"' = ['\\', '"'] from rfl]
      simp only [List.cons_append, List.nil_append]
      rw [parseStringBody.eq_def]
      simp [ih rest]
    · by_cases h2 : c = '\\'
      · subst h2
        rw [show escapeChar '\\' = ['\\', '\\'] from rfl]
        simp only [List.cons_append, List.nil_append]
        rw [parseStringBody.eq_def]
        simp [ih rest]
      · by_cases h3 : c = '\x08'
        · subst h3
          rw [show escapeChar '\x08' = ['\\', 'b'] from rfl]
          simp only [List.cons_append, List.nil_append]
          rw [parseStringBody.eq_def]
          simp [ih rest]
        · by_cases h4 : c = '\x0c'
          · subst h4
            rw [show escapeChar '\x0c' = ['\\', 'f'] from rfl]
            simp only [List.cons_append, List.nil_append]
            rw [parseStringBody.eq_def]
            simp [ih rest]
          · by_cases h5 : c = '\n'
            · subst h5
              rw [show escapeChar '\n' = ['\\', 'n'] from rfl]
              simp only [List.cons_append, List.nil_append]
              rw [parseStringBody.eq_def]
              simp [ih rest]
            · by_cases h6 : c = '\r'
              · subst h6
                rw [show escapeChar '\r' = ['\\', 'r'] from rfl]
                simp only [List.cons_append, List.nil_append]
                rw [parseStringBody.eq_def]
                simp [ih rest]
              · by_cases h7 : c = '\t'
                · subst h7
                  rw [show escapeChar '\t' = ['\\', 't'] from rfl]
                  simp only [List.cons_append, List.nil_append]
                  rw [parseStringBody.eq_def]
                  simp [ih rest]
                · by_cases h8 : c.toNat < 32
                  · have he : escapeChar c =
                        ['\\', 'u', '0', '0', hexDigitChar (c.toNat / 16),
                          hexDigitChar (c.toNat % 16)] := by
                      unfold escapeChar
                      rw [if_neg h1, if_neg h2, if_neg h3, if_neg h4, if_neg h5, if_neg h6,
                        if_neg h7, if_pos h8]
                    rw [he]
                    simp only [List.cons_append, List.nil_append]
                    rw [parseStringBody.eq_def]
                    have hx1 : hexVal (hexDigitChar (c.toNat / 16)) = some (c.toNat / 16) :=
                      hexVal_hexDigitChar (c.toNat / 16) (by omega)
                    have hx2 : hexVal (hexDigitChar (c.toNat % 16)) = some (c.toNat % 16) :=
                      hexVal_hexDigitChar (c.toNat % 16) (by omega)
                    simp [hx1, hx2, ih rest, show hexVal '0' = some 0 from rfl]
                    apply charOfNat_eq
                    omega
                  · have he : escapeChar c = [c] := by
                      unfold escapeChar
                      rw [if_neg h1, if_neg h2, if_neg h3, if_neg h4, if_neg h5, if_neg h6,
                        if_neg h7, if_neg h8]
                    rw [he]
                    simp only [List.cons_append, List.nil_append, List.singleton_append]
                    rw [psb_literal c _ h1 h2 h8]
                    simp [ih rest]

-- ===== number roundtrip =====
theorem hexDigitChar_toNat (n : Nat) (h : n < 10) : (hexDigitChar n).toNat = 48 + n := by
  interval_cases n <;> rfl

theorem natDigitsAux_toNat_bounds (fuel n : Nat) :
    ∀ c ∈ natDigitsAux fuel n, 48 ≤ c.toNat ∧ c.toNat ≤ 57 := by
  induction fuel generalizing n with
  | zero => simp [natDigitsAux]
  | succ f ih =>
    intro c hc
    rw [natDigitsAux] at hc
    by_cases hn : n < 10
    · rw [if_pos hn] at hc
      simp at hc
      subst hc
      rw [hexDigitChar_toNat n hn]
      omega
    · rw [if_neg hn] at hc
      rcases List.mem_append.1 hc with hm | hm
      · exact ih _ c hm
      · simp at hm
        subst hm
        rw [hexDigitChar_toNat _ (by omega)]
        omega

theorem digit_cases (c : Char) (h48 : 48 ≤ c.toNat) (h57 : c.toNat ≤ 57) :
    c = '0' ∨ c = '1' ∨ c = '2' ∨ c = '3' ∨ c = '4' ∨ c = '5' ∨ c = '6' ∨ c = '7' ∨
      c = '8' ∨ c = '9' := by
  have hc := (Char.ofNat_toNat c).symm
  set n := c.toNat with hn
  interval_cases n <;> simp_all

theorem digit_facts (c : Char) (h48 : 48 ≤ c.toNat) (h57 : c.toNat ≤ 57) :
    isJsonWs c = false ∧ c ≠ 'n' ∧ c ≠ 't' ∧ c ≠ 'f' ∧ c ≠ '"' ∧ c ≠ '[' ∧ c ≠ '{' ∧
      c ≠ ']' ∧ c ≠ '}' ∧ c ≠ ',' ∧ c ≠ '-' ∧ c.isDigit = true ∧ c.toNat - 48 < 10 := by
  rcases digit_cases c h48 h57 with h | h | h | h | h | h | h | h | h | h <;> subst h <;>
    exact ⟨by decide, by decide, by decide, by decide, by decide, by decide, by decide,
      by decide, by decide, by decide, by decide, by decide, by decide⟩

theorem readDigits_stop (acc : Nat) (rest : List Char) (h : NoDigitHead rest) :
    readDigits acc rest = (acc, rest) := by
  cases rest with
  | nil => rfl
  | cons c r =>
    have := h c rfl
    rw [readDigits, if_neg (by simp [this])]

theorem readDigits_digit (acc : Nat) (c : Char) (r : List Char) (h : c.isDigit = true) :
    readDigits acc (c :: r) = readDigits (acc * 10 + (c.toNat - 48)) r := by
  rw [readDigits, if_pos h]

theorem readDigits_natDigitsAux (fuel : Nat) : ∀ n acc rest, n < fuel →
    readDigits acc (natDigitsAux fuel n ++ rest) =
      readDigits (acc * 10 ^ (natDigitsAux fuel n).length + n) rest := by
  induction fuel with
  | zero => omega
  | succ f ih =>
    intro n acc rest hn
    by_cases h10 : n < 10
    · rw [natDigitsAux, if_pos h10]
      have hb : 48 ≤ (hexDigitChar n).toNat ∧ (hexDigitChar n).toNat ≤ 57 := by
        rw [hexDigitChar_toNat n h10]; omega
      have hfacts := digit_facts _ hb.1 hb.2
      simp only [List.singleton_append, List.length_singleton]
      rw [readDigits_digit _ _ _ hfacts.2.2.2.2.2.2.2.2.2.2.2.1]
      rw [hexDigitChar_toNat n h10]
      norm_num
    · rw [natDigitsAux, if_neg h10]
      rw [List.append_assoc]
      have hrec : n / 10 < f := by omega
      rw [ih (n / 10) acc _ hrec]
      have hb : 48 ≤ (hexDigitChar (n % 10)).toNat ∧ (hexDigitChar (n % 10)).toNat ≤ 57 := by
        rw [hexDigitChar_toNat _ (by omega)]; omega
      have hfacts := digit_facts _ hb.1 hb.2
      simp only [List.singleton_append]
      rw [readDigits_digit _ _ _ hfacts.2.2.2.2.2.2.2.2.2.2.2.1]
      rw [hexDigitChar_toNat _ (by omega)]
      have harith : (acc * 10 ^ (natDigitsAux f (n / 10)).length + n / 10) * 10 +
          (48 + n % 10 - 48) =
          acc * 10 ^ (natDigitsAux f (n / 10) ++ [hexDigitChar (n % 10)]).length + n := by
        simp only [List.length_append, List.length_singleton]
        calc (acc * 10 ^ (natDigitsAux f (n / 10)).length + n / 10) * 10 + (48 + n % 10 - 48)
            = acc * (10 ^ (natDigitsAux f (n / 10)).length * 10) +
              (10 * (n / 10) + n % 10) := by ring_nf; omega
          _ = _ := by rw [Nat.div_add_mod, pow_succ]
      rw [harith]

theorem natDigitsAux_ne_nil (f n : Nat) : natDigitsAux (f + 1) n ≠ [] := by
  rw [natDigitsAux]
  by_cases h : n < 10
  · simp [h]
  · rw [if_neg h]
    simp

theorem readDigits_natDigits (n : Nat) (rest : List Char) (h : NoDigitHead rest) :
    readDigits 0 (natDigits n ++ rest) = (n, rest) := by
  unfold natDigits
  rw [readDigits_natDigitsAux (n + 1) n 0 rest (by omega)]
  simp only [Nat.zero_mul, Nat.zero_add]
  exact readDigits_stop n rest h

-- ===== parseNumberFrom roundtrip =====
theorem natDigits_head (n : Nat) :
    ∃ c cs, natDigits n = c :: cs ∧ 48 ≤ c.toNat ∧ c.toNat ≤ 57 := by
  unfold natDigits
  cases h : natDigitsAux (n + 1) n with
  | nil => exact absurd h (natDigitsAux_ne_nil n n)
  | cons c cs =>
    have hb := natDigitsAux_toNat_bounds (n + 1) n c (by rw [h]; exact List.mem_cons_self c cs)
    exact ⟨c, cs, rfl, hb.1, hb.2⟩

theorem readDigits_from_head (m : Nat) (c : Char) (cs rest : List Char)
    (hm : natDigits m = c :: cs) (h : NoDigitHead rest) :
    readDigits (c.toNat - 48) (cs ++ rest) = (m, rest) := by
  obtain ⟨c', cs', hcc, h48, h57⟩ := natDigits_head m
  rw [hm] at hcc
  cases hcc
  have hdig := (digit_facts c h48 h57).2.2.2.2.2.2.2.2.2.2.2.1
  have hrd := readDigits_natDigits m rest h
  rw [hm, List.cons_append, readDigits_digit 0 c _ hdig] at hrd
  simpa using hrd

theorem parseNumberFrom_rt (n : Int) (rest : List Char) (h : NoDigitHead rest) :
    ∀ c cs, stringifyInt n = c :: cs → parseNumberFrom c (cs ++ rest) = some (.num n, rest) := by
  intro c cs hcc
  unfold stringifyInt at hcc
  by_cases hn : n < 0
  · rw [if_pos hn] at hcc
    cases hcc
    obtain ⟨d, ds, hd, h48, h57⟩ := natDigits_head n.natAbs
    rw [hd]
    unfold parseNumberFrom
    rw [if_pos rfl]
    simp only [List.cons_append]
    have hfacts := digit_facts d h48 h57
    rw [if_pos hfacts.2.2.2.2.2.2.2.2.2.2.2.1]
    have hread := readDigits_from_head n.natAbs d ds rest hd h
    simp only [hread]
    have hz : -((n.natAbs : Nat) : Int) = n := by omega
    rw [hz]
  · rw [if_neg hn] at hcc
    obtain ⟨d, ds, hd, h48, h57⟩ := natDigits_head n.toNat
    rw [hcc] at hd
    cases hd
    have hfacts := digit_facts c h48 h57
    unfold parseNumberFrom
    rw [if_neg (by
        intro hcon
        rw [hcon] at hfacts
        exact absurd rfl hfacts.2.2.2.2.2.2.2.2.2.2.1),
      if_pos hfacts.2.2.2.2.2.2.2.2.2.2.2.1]
    have hread := readDigits_from_head n.toNat c cs rest hcc h
    simp only [hread]
    have hz : ((n.toNat : Nat) : Int) = n := by omega
    rw [hz]

theorem sizeJ_pos (v : Json) : 1 ≤ sizeJ v := by
  cases v <;> simp [sizeJ] <;> omega

theorem sizeL_mem (x : Json) (xs : List Json) (h : x ∈ xs) : sizeJ x ≤ sizeL xs := by
  induction xs with
  | nil => cases h
  | cons y ys ih =>
    rcases List.mem_cons.1 h with rfl | h
    · simp only [sizeL]; omega
    · have := ih h
      simp only [sizeL]; omega

theorem sizeO_mem (kv : List Char × Json) (kvs : List (List Char × Json)) (h : kv ∈ kvs) :
    sizeJ kv.2 ≤ sizeO kvs := by
  induction kvs with
  | nil => cases h
  | cons m ms ih =>
    rcases List.mem_cons.1 h with rfl | h
    · simp only [sizeO]; omega
    · have := ih h
      simp only [sizeO]; omega

theorem stringifyArr_eq (x : Json) (xs : List Json) :
    stringifyArr (x :: xs) = jsonStringify x ++ stringifyItems xs := by
  induction xs generalizing x with
  | nil => simp [stringifyArr, stringifyItems]
  | cons y ys ih =>
    rw [show stringifyArr (x :: y :: ys) = jsonStringify x ++ ',' :: stringifyArr (y :: ys)
      from rfl, ih y]
    simp [stringifyItems]

theorem stringifyObj_eq (kv : List Char × Json) (kvs : List (List Char × Json)) :
    stringifyObj (kv :: kvs) =
      (stringifyStr kv.1 ++ ':' :: jsonStringify kv.2) ++ stringifyOItems kvs := by
  induction kvs generalizing kv with
  | nil =>
    obtain ⟨k, v⟩ := kv
    simp [stringifyObj, stringifyOItems]
  | cons m ms ih =>
    obtain ⟨k, v⟩ := kv
    rw [show stringifyObj ((k, v) :: m :: ms) =
      stringifyStr k ++ ':' :: jsonStringify v ++ ',' :: stringifyObj (m :: ms) from rfl, ih m]
    simp [stringifyOItems]

theorem jsonStringify_head (v : Json) : ∃ c cs, jsonStringify v = c :: cs ∧
    (c = 'n' ∨ c = 't' ∨ c = 'f' ∨ c = '"' ∨ c = '[' ∨ c = '{' ∨ c = '-' ∨
      (48 ≤ c.toNat ∧ c.toNat ≤ 57)) := by
  cases v with
  | null => exact ⟨'n', _, rfl, by simp⟩
  | bool b =>
    cases b with
    | false => exact ⟨'f', _, rfl, by simp⟩
    | true => exact ⟨'t', _, rfl, by simp⟩
  | num n =>
    show ∃ c cs, stringifyInt n = c :: cs ∧ _
    unfold stringifyInt
    by_cases hn : n < 0
    · rw [if_pos hn]
      exact ⟨'-', _, rfl, by simp⟩
    · rw [if_neg hn]
      obtain ⟨d, ds, hd, h48, h57⟩ := natDigits_head n.toNat
      exact ⟨d, ds, hd, by omega⟩
  | str s => exact ⟨'"', _, rfl, by simp⟩
  | arr xs => exact ⟨'[', stringifyArr xs ++ [']'], rfl, by simp⟩
  | obj kvs => exact ⟨'{', stringifyObj kvs ++ ['}'], rfl, by simp⟩

theorem head_no_close (c : Char)
    (h : c = 'n' ∨ c = 't' ∨ c = 'f' ∨ c = '"' ∨ c = '[' ∨ c = '{' ∨ c = '-' ∨
      (48 ≤ c.toNat ∧ c.toNat ≤ 57)) :
    isJsonWs c = false ∧ c ≠ ']' ∧ c ≠ '}' ∧ c ≠ ',' := by
  rcases h with rfl | rfl | rfl | rfl | rfl | rfl | rfl | hb
  · exact ⟨by decide, by decide, by decide, by decide⟩
  · exact ⟨by decide, by decide, by decide, by decide⟩
  · exact ⟨by decide, by decide, by decide, by decide⟩
  · exact ⟨by decide, by decide, by decide, by decide⟩
  · exact ⟨by decide, by decide, by decide, by decide⟩
  · exact ⟨by decide, by decide, by decide, by decide⟩
  · exact ⟨by decide, by decide, by decide, by decide⟩
  · have hf := digit_facts c hb.1 hb.2
    exact ⟨hf.1, hf.2.2.2.2.2.2.2.1, hf.2.2.2.2.2.2.2.2.1, hf.2.2.2.2.2.2.2.2.2.1⟩

theorem jsonStringify_ne_nil (v : Json) : jsonStringify v ≠ [] := by
  obtain ⟨c, cs, h, _⟩ := jsonStringify_head v
  rw [h]
  simp

theorem noDigitHead_nil : NoDigitHead [] := by
  intro c hc
  simp at hc

theorem noDigitHead_cons (c : Char) (r : List Char) (h : c.isDigit = false) :
    NoDigitHead (c :: r) := by
  intro d hd
  simp at hd
  subst hd
  exact h

theorem noDigitHead_items (xs : List Json) (rest : List Char) :
    NoDigitHead (stringifyItems xs ++ ']' :: rest) := by
  cases xs with
  | nil => exact noDigitHead_cons _ _ (by decide)
  | cons y ys =>
    show NoDigitHead ((',' :: _) ++ _)
    exact noDigitHead_cons _ _ (by decide)

theorem noDigitHead_oitems (kvs : List (List Char × Json)) (rest : List Char) :
    NoDigitHead (stringifyOItems kvs ++ '}' :: rest) := by
  cases kvs with
  | nil => exact noDigitHead_cons _ _ (by decide)
  | cons m ms =>
    show NoDigitHead ((',' :: _) ++ _)
    exact noDigitHead_cons _ _ (by decide)

theorem stringifyItems_cons (y : Json) (ys : List Json) :
    stringifyItems (y :: ys) = ',' :: (jsonStringify y ++ stringifyItems ys) := by
  simp [stringifyItems]

theorem stringifyOItems_cons (m : List Char × Json) (ms : List (List Char × Json)) :
    stringifyOItems (m :: ms) =
      ',' :: (stringifyStr m.1 ++ ':' :: jsonStringify m.2 ++ stringifyOItems ms) := by
  simp [stringifyOItems]

-- reduction shape lemmas (definitional unfoldings at one step of fuel)
theorem parseArrayItems_close (f : Nat) (rest : List Char) :
    parseArrayItems (f + 1) (']' :: rest) = some ([], rest) := rfl

theorem parseArrayItems_comma (f : Nat) (t : List Char) :
    parseArrayItems (f + 1) (',' :: t) =
      match parseValue f t with
      | some (v, rest) =>
        match parseArrayItems f rest with
        | some (vs, rest2) => some (v :: vs, rest2)
        | none => none
      | none => none := rfl

theorem parseArrayTail_close (f : Nat) (rest : List Char) :
    parseArrayTail (f + 1) (']' :: rest) = some (.arr [], rest) := rfl

theorem parseValue_quote (f : Nat) (t : List Char) :
    parseValue (f + 1) ('"' :: t) =
      match parseStringBody t with
      | some (content, rest) => some (.str content, rest)
      | none => none := rfl

theorem parseValue_lbracket (f : Nat) (t : List Char) :
    parseValue (f + 1) ('[' :: t) = parseArrayTail f t := rfl

theorem parseValue_lbrace (f : Nat) (t : List Char) :
    parseValue (f + 1) ('{' :: t) = parseObjectTail f t := rfl

theorem parseObjectTail_close (f : Nat) (rest : List Char) :
    parseObjectTail (f + 1) ('}' :: rest) = some (.obj [], rest) := rfl

theorem parseObjectItems_close (f : Nat) (rest : List Char) :
    parseObjectItems (f + 1) ('}' :: rest) = some ([], rest) := rfl

theorem parseObjectItems_comma (f : Nat) (t : List Char) :
    parseObjectItems (f + 1) (',' :: t) =
      match parseMember f t with
      | some (kv, rest) =>
        match parseObjectItems f rest with
        | some (kvs, rest2) => some (kv :: kvs, rest2)
        | none => none
      | none => none := rfl

theorem parseMember_quote (f : Nat) (t : List Char) :
    parseMember (f + 1) ('"' :: t) =
      match parseStringBody t with
      | some (key, rest) =>
        match rest.dropWhile isJsonWs with
        | ':' :: r2 =>
          match parseValue f r2 with
          | some (v, rest2) => some ((key, v), rest2)
          | none => none
        | _ => none
      | none => none := rfl

theorem parseValue_dispatch (f : Nat) (c : Char) (t : List Char) (hws : isJsonWs c = false)
    (h1 : c ≠ 'n') (h2 : c ≠ 't') (h3 : c ≠ 'f') (h4 : c ≠ '"') (h5 : c ≠ '[')
    (h6 : c ≠ '{') :
    parseValue (f + 1) (c :: t) = parseNumberFrom c t := by
  rw [parseValue.eq_def]
  simp [List.dropWhile_cons, hws, h1, h2, h3, h4, h5, h6]

theorem parseArrayTail_go (f : Nat) (c : Char) (t : List Char) (hws : isJsonWs c = false)
    (hc : c ≠ ']') :
    parseArrayTail (f + 1) (c :: t) =
      match parseValue f (c :: t) with
      | some (v, rest) =>
        match parseArrayItems f rest with
        | some (vs, rest2) => some (.arr (v :: vs), rest2)
        | none => none
      | none => none := by
  rw [parseArrayTail.eq_def]
  simp [List.dropWhile_cons, hws, hc]

theorem parseObjectTail_go (f : Nat) (c : Char) (t : List Char) (hws : isJsonWs c = false)
    (hc : c ≠ '}') :
    parseObjectTail (f + 1) (c :: t) =
      match parseMember f (c :: t) with
      | some (kv, rest) =>
        match parseObjectItems f rest with
        | some (kvs, rest2) => some (.obj (kv :: kvs), rest2)
        | none => none
      | none => none := by
  rw [parseObjectTail.eq_def]
  simp [List.dropWhile_cons, hws, hc]

theorem parseArrayItems_rt (xs : List Json) (hx : ∀ x ∈ xs, PVp x) :
    ∀ fuel rest, (stringifyItems xs).length + 1 ≤ fuel →
      parseArrayItems fuel (stringifyItems xs ++ ']' :: rest) = some (xs, rest) := by
  induction xs with
  | nil =>
    intro fuel rest hf
    obtain ⟨f, rfl⟩ : ∃ f, fuel = f + 1 := ⟨fuel - 1, by omega⟩
    rw [show stringifyItems [] = [] from rfl, List.nil_append, parseArrayItems_close]
  | cons y ys ih =>
    intro fuel rest hf
    obtain ⟨f, rfl⟩ : ∃ f, fuel = f + 1 := ⟨fuel - 1, by omega⟩
    rw [stringifyItems_cons] at hf ⊢
    rw [List.cons_append, parseArrayItems_comma]
    have hy := hx y (List.mem_cons_self y ys) f (stringifyItems ys ++ ']' :: rest)
      (by simp at hf ⊢; omega) (noDigitHead_items ys rest)
    rw [← List.append_assoc] at hy
    simp only [List.append_assoc] at hy ⊢
    simp only [hy,
      ih (fun x hm => hx x (List.mem_cons_of_mem y hm)) f rest (by simp at hf ⊢; omega)]

theorem parseArrayTail_rt (xs : List Json) (hx : ∀ x ∈ xs, PVp x) :
    ∀ fuel rest, (stringifyArr xs).length + 1 ≤ fuel →
      parseArrayTail fuel (stringifyArr xs ++ ']' :: rest) = some (.arr xs, rest) := by
  cases xs with
  | nil =>
    intro fuel rest hf
    obtain ⟨f, rfl⟩ : ∃ f, fuel = f + 1 := ⟨fuel - 1, by omega⟩
    rw [show stringifyArr [] = [] from rfl, List.nil_append, parseArrayTail_close]
  | cons x xs' =>
    intro fuel rest hf
    obtain ⟨f, rfl⟩ : ∃ f, fuel = f + 1 := ⟨fuel - 1, by omega⟩
    rw [stringifyArr_eq] at hf ⊢
    obtain ⟨c, cs, hd, hh⟩ := jsonStringify_head x
    have hprops := head_no_close c hh
    rw [hd] at hf ⊢
    simp only [List.cons_append, List.append_assoc] at hf ⊢
    rw [parseArrayTail_go f c _ hprops.1 hprops.2.1]
    have hy := hx x (List.mem_cons_self x xs') f (stringifyItems xs' ++ ']' :: rest)
      (by rw [hd]; simp at hf ⊢; omega) (noDigitHead_items xs' rest)
    rw [hd] at hy
    simp only [List.cons_append, List.append_assoc] at hy
    simp only [hy,
      parseArrayItems_rt xs' (fun z hm => hx z (List.mem_cons_of_mem x hm)) f rest
        (by simp at hf ⊢; omega)]

theorem parseMember_rt (k : List Char) (v : Json) (hv : PVp v) :
    ∀ fuel rest, (jsonStringify v).length + 1 ≤ fuel → NoDigitHead rest →
      parseMember fuel (stringifyStr k ++ ':' :: (jsonStringify v ++ rest)) =
        some ((k, v), rest) := by
  intro fuel rest hf hrest
  obtain ⟨f, rfl⟩ : ∃ f, fuel = f + 1 := ⟨fuel - 1, by omega⟩
  show parseMember (f + 1) (('"' :: ((k.map escapeChar).flatten ++ ['"'])) ++ _) = _
  rw [List.cons_append, parseMember_quote]
  simp only [List.append_assoc, List.singleton_append]
  rw [psb_roundtrip k (':' :: (jsonStringify v ++ rest))]
  simp only
  rw [show List.dropWhile isJsonWs (':' :: (jsonStringify v ++ rest)) =
    ':' :: (jsonStringify v ++ rest) from rfl]
  simp only [hv f rest (by omega) hrest]

theorem parseObjectItems_rt (kvs : List (List Char × Json))
    (hx : ∀ kv ∈ kvs, PVp kv.2) :
    ∀ fuel rest, (stringifyOItems kvs).length + 1 ≤ fuel →
      parseObjectItems fuel (stringifyOItems kvs ++ '}' :: rest) = some (kvs, rest) := by
  induction kvs with
  | nil =>
    intro fuel rest hf
    obtain ⟨f, rfl⟩ : ∃ f, fuel = f + 1 := ⟨fuel - 1, by omega⟩
    rw [show stringifyOItems [] = [] from rfl, List.nil_append, parseObjectItems_close]
  | cons m ms ih =>
    intro fuel rest hf
    obtain ⟨f, rfl⟩ : ∃ f, fuel = f + 1 := ⟨fuel - 1, by omega⟩
    rw [stringifyOItems_cons] at hf ⊢
    rw [List.cons_append, parseObjectItems_comma]
    have hm := parseMember_rt m.1 m.2 (hx m (List.mem_cons_self m ms)) f
      (stringifyOItems ms ++ '}' :: rest) (by simp at hf ⊢; omega)
      (noDigitHead_oitems ms rest)
    simp only [List.append_assoc, List.cons_append] at hm ⊢
    simp only [hm,
      ih (fun kv hmem => hx kv (List.mem_cons_of_mem m hmem)) f rest
        (by simp at hf ⊢; omega)]

theorem parseObjectTail_rt (kvs : List (List Char × Json))
    (hx : ∀ kv ∈ kvs, PVp kv.2) :
    ∀ fuel rest, (stringifyObj kvs).length + 1 ≤ fuel →
      parseObjectTail fuel (stringifyObj kvs ++ '}' :: rest) = some (.obj kvs, rest) := by
  cases kvs with
  | nil =>
    intro fuel rest hf
    obtain ⟨f, rfl⟩ : ∃ f, fuel = f + 1 := ⟨fuel - 1, by omega⟩
    rw [show stringifyObj [] = [] from rfl, List.nil_append, parseObjectTail_close]
  | cons m ms =>
    intro fuel rest hf
    obtain ⟨f, rfl⟩ : ∃ f, fuel = f + 1 := ⟨fuel - 1, by omega⟩
    rw [stringifyObj_eq] at hf ⊢
    show parseObjectTail (f + 1)
      ((('"' :: ((m.1.map escapeChar).flatten ++ ['"'])) ++ ':' :: jsonStringify m.2 ++
        stringifyOItems ms) ++ '}' :: rest) = _
    simp only [List.cons_append, List.append_assoc]
    rw [parseObjectTail_go f '"' _ (by decide) (by decide)]
    have hmem := parseMember_rt m.1 m.2 (hx m (List.mem_cons_self m ms)) f
      (stringifyOItems ms ++ '}' :: rest) (by simp at hf ⊢; omega)
      (noDigitHead_oitems ms rest)
    rw [show stringifyStr m.1 = '"' :: ((m.1.map escapeChar).flatten ++ ['"']) from rfl]
      at hmem
    simp only [List.cons_append, List.append_assoc, List.singleton_append,
      List.nil_append] at hmem ⊢
    simp only [hmem,
      parseObjectItems_rt ms (fun kv hmm => hx kv (List.mem_cons_of_mem m hmm)) f rest
        (by simp at hf ⊢; omega)]

theorem pv_all (v : Json) : PVp v := by
  suffices h : ∀ N v, sizeJ v ≤ N → PVp v from h (sizeJ v) v le_rfl
  intro N
  induction N using Nat.strong_induction_on with
  | _ N ih =>
    intro v hN
    cases v with
    | null =>
      intro fuel rest hf hrest
      obtain ⟨f, rfl⟩ : ∃ f, fuel = f + 1 := ⟨fuel - 1, by
        simp [jsonStringify, keywordChars] at hf; omega⟩
      rfl
    | bool b =>
      intro fuel rest hf hrest
      cases b
      · obtain ⟨f, rfl⟩ : ∃ f, fuel = f + 1 := ⟨fuel - 1, by
          simp [jsonStringify, keywordChars] at hf; omega⟩
        rfl
      · obtain ⟨f, rfl⟩ : ∃ f, fuel = f + 1 := ⟨fuel - 1, by
          simp [jsonStringify, keywordChars] at hf; omega⟩
        rfl
    | num n =>
      intro fuel rest hf hrest
      have hne : 1 ≤ (jsonStringify (Json.num n)).length := by
        have := jsonStringify_ne_nil (Json.num n)
        cases h : jsonStringify (Json.num n) with
        | nil => exact absurd h this
        | cons a as => simp [h]
      obtain ⟨f, rfl⟩ : ∃ f, fuel = f + 1 := ⟨fuel - 1, by omega⟩
      show parseValue (f + 1) (stringifyInt n ++ rest) = some (Json.num n, rest)
      by_cases hn : n < 0
      · have hsi : stringifyInt n = '-' :: natDigits n.natAbs := by
          unfold stringifyInt; rw [if_pos hn]
        rw [hsi, List.cons_append,
          parseValue_dispatch f '-' _ (by decide) (by decide) (by decide) (by decide)
            (by decide) (by decide) (by decide)]
        exact parseNumberFrom_rt n rest hrest '-' (natDigits n.natAbs) hsi
      · have hsi : stringifyInt n = natDigits n.toNat := by
          unfold stringifyInt; rw [if_neg hn]
        obtain ⟨d, ds, hd, h48, h57⟩ := natDigits_head n.toNat
        have hfacts := digit_facts d h48 h57
        rw [hsi, hd, List.cons_append,
          parseValue_dispatch f d _ hfacts.1 hfacts.2.1 hfacts.2.2.1 hfacts.2.2.2.1
            hfacts.2.2.2.2.1 hfacts.2.2.2.2.2.1 hfacts.2.2.2.2.2.2.1]
        exact parseNumberFrom_rt n rest hrest d ds (by rw [hsi, hd])
    | str s =>
      intro fuel rest hf hrest
      obtain ⟨f, rfl⟩ : ∃ f, fuel = f + 1 := ⟨fuel - 1, by
        simp [jsonStringify, stringifyStr] at hf; omega⟩
      show parseValue (f + 1) (('"' :: ((s.map escapeChar).flatten ++ ['"'])) ++ rest) =
        some (Json.str s, rest)
      rw [List.cons_append, parseValue_quote]
      simp only [List.append_assoc, List.singleton_append]
      rw [psb_roundtrip s rest]
    | arr xs =>
      intro fuel rest hf hrest
      obtain ⟨f, rfl⟩ : ∃ f, fuel = f + 1 := ⟨fuel - 1, by
        simp [jsonStringify, keywordChars] at hf; omega⟩
      show parseValue (f + 1) (('[' :: (stringifyArr xs ++ [']'])) ++ rest) =
        some (Json.arr xs, rest)
      rw [List.cons_append, parseValue_lbracket]
      simp only [List.append_assoc, List.singleton_append]
      have hN1 : 1 ≤ N := le_trans (sizeJ_pos _) hN
      refine parseArrayTail_rt xs (fun x hm => ih (N - 1) (by omega) x ?_) f rest (by
        simp [jsonStringify, keywordChars] at hf; omega)
      have h1 := sizeL_mem x xs hm
      simp only [sizeJ] at hN
      omega
    | obj kvs =>
      intro fuel rest hf hrest
      obtain ⟨f, rfl⟩ : ∃ f, fuel = f + 1 := ⟨fuel - 1, by
        simp [jsonStringify, keywordChars] at hf; omega⟩
      show parseValue (f + 1) (('{' :: (stringifyObj kvs ++ ['}'])) ++ rest) =
        some (Json.obj kvs, rest)
      rw [List.cons_append, parseValue_lbrace]
      simp only [List.append_assoc, List.singleton_append]
      have hN1 : 1 ≤ N := le_trans (sizeJ_pos _) hN
      refine parseObjectTail_rt kvs (fun kv hm => ih (N - 1) (by omega) kv.2 ?_) f rest (by
        simp [jsonStringify, keywordChars] at hf; omega)
      have h1 := sizeO_mem kv kvs hm
      simp only [sizeJ] at hN
      omega

/-- `JSON.parse` inverts `JSON.stringify`: the already-framed roundtrip. -/
theorem jsonParse_stringify (v : Json) : jsonParse (jsonStringify v) = some v := by
  unfold jsonParse
  have h := pv_all v ((jsonStringify v).length + 1) [] (by omega) noDigitHead_nil
  rw [List.append_nil] at h
  rw [h]
  rfl

-- ===== stringify emits no newline =====
theorem hexDigitChar_ne_nl (n : Nat) : hexDigitChar n ≠ '\n' := by
  unfold hexDigitChar
  split <;> decide

theorem escapeChar_no_nl (c : Char) : '\n' ∉ escapeChar c := by
  unfold escapeChar
  split_ifs with h1 h2 h3 h4 h5 h6 h7 h8
  · decide
  · decide
  · decide
  · decide
  · decide
  · decide
  · decide
  · intro hmem
    simp at hmem
    rcases hmem with h | h <;> exact hexDigitChar_ne_nl _ h.symm
  · intro hmem
    simp at hmem
    exact h5 hmem.symm

theorem stringifyStr_no_nl (s : List Char) : '\n' ∉ stringifyStr s := by
  unfold stringifyStr
  intro hmem
  rcases List.mem_cons.1 hmem with h | h
  · exact absurd h.symm (by decide)
  · rcases List.mem_append.1 h with h | h
    · obtain ⟨l, hl, hcl⟩ := List.mem_flatten.1 h
      obtain ⟨c, _, rfl⟩ := List.mem_map.1 hl
      exact escapeChar_no_nl c hcl
    · simp at h

theorem natDigits_no_nl (n : Nat) : '\n' ∉ natDigits n := by
  intro hmem
  have := natDigitsAux_toNat_bounds (n + 1) n '\n' hmem
  have h10 : ('\n').toNat = 10 := rfl
  omega

theorem stringifyInt_no_nl (n : Int) : '\n' ∉ stringifyInt n := by
  unfold stringifyInt
  split_ifs with h
  · intro hmem
    rcases List.mem_cons.1 hmem with hc | hc
    · exact absurd hc.symm (by decide)
    · exact natDigits_no_nl _ hc
  · exact natDigits_no_nl _

theorem jsonStringify_no_nl (v : Json) : '\n' ∉ jsonStringify v := by
  suffices h : ∀ N v, sizeJ v ≤ N → '\n' ∉ jsonStringify v from h (sizeJ v) v le_rfl
  intro N
  induction N using Nat.strong_induction_on with
  | _ N ih =>
    intro v hN
    cases v with
    | null => decide
    | bool b => cases b <;> decide
    | num n => exact stringifyInt_no_nl n
    | str s => exact stringifyStr_no_nl s
    | arr xs =>
      have hN1 : 1 ≤ N := le_trans (sizeJ_pos _) hN
      show '\n' ∉ '[' :: (stringifyArr xs ++ [']'])
      intro hmem
      rcases List.mem_cons.1 hmem with h | h
      · exact absurd h.symm (by decide)
      rcases List.mem_append.1 h with h | h
      · cases xs with
        | nil => simp [stringifyArr] at h
        | cons x xs' =>
          rw [stringifyArr_eq] at h
          rcases List.mem_append.1 h with h | h
          · refine ih (N - 1) (by omega) x ?_ h
            have h1 := sizeL_mem x (x :: xs') (List.mem_cons_self x xs')
            simp only [sizeJ] at hN
            omega
          · obtain ⟨l, hl, hcl⟩ := List.mem_flatten.1 h
            obtain ⟨y, hy, rfl⟩ := List.mem_map.1 hl
            rcases List.mem_cons.1 hcl with hc | hc
            · exact absurd hc.symm (by decide)
            · refine ih (N - 1) (by omega) y ?_ hc
              have h1 := sizeL_mem y (x :: xs') (List.mem_cons_of_mem x hy)
              simp only [sizeJ] at hN
              omega
      · simp at h
    | obj kvs =>
      have hN1 : 1 ≤ N := le_trans (sizeJ_pos _) hN
      show '\n' ∉ '{' :: (stringifyObj kvs ++ ['}'])
      intro hmem
      rcases List.mem_cons.1 hmem with h | h
      · exact absurd h.symm (by decide)
      rcases List.mem_append.1 h with h | h
      · cases kvs with
        | nil => simp [stringifyObj] at h
        | cons m ms =>
          rw [stringifyObj_eq] at h
          rcases List.mem_append.1 h with h | h
          · rcases List.mem_append.1 h with h | h
            · exact stringifyStr_no_nl m.1 h
            · rcases List.mem_cons.1 h with hc | hc
              · exact absurd hc.symm (by decide)
              · refine ih (N - 1) (by omega) m.2 ?_ hc
                have h1 := sizeO_mem m (m :: ms) (List.mem_cons_self m ms)
                simp only [sizeJ] at hN
                omega
          · obtain ⟨l, hl, hcl⟩ := List.mem_flatten.1 h
            obtain ⟨kv, hkv, rfl⟩ := List.mem_map.1 hl
            rcases List.mem_cons.1 hcl with hc | hc
            · exact absurd hc.symm (by decide)
            rcases List.mem_append.1 hc with hc | hc
            · exact stringifyStr_no_nl kv.1 hc
            rcases List.mem_cons.1 hc with hc | hc
            · exact absurd hc.symm (by decide)
            · refine ih (N - 1) (by omega) kv.2 ?_ hc
              have h1 := sizeO_mem kv (m :: ms) (List.mem_cons_of_mem m hkv)
              simp only [sizeJ] at hN
              omega
      · simp at h

theorem utf8DecodeChunk_append (pending : List Nat) (c1 c2 : List Nat) :
    utf8DecodeChunk pending (c1 ++ c2) =
      ((utf8DecodeChunk (utf8DecodeChunk pending c1).1 c2).1,
        (utf8DecodeChunk pending c1).2 ++ (utf8DecodeChunk (utf8DecodeChunk pending c1).1 c2).2) := by
  induction c1 generalizing pending with
  | nil => simp [utf8DecodeChunk]
  | cons b bs ih => simp [utf8DecodeChunk, ih]

theorem char_valid_nat (c : Char) :
    c.toNat < 55296 ∨ (57343 < c.toNat ∧ c.toNat < 1114112) := c.valid

theorem utf8Step_fresh_lead (b : Nat) (h1 : utf8Need b ≠ 1) (h0 : utf8Need b ≠ 0) :
    utf8Step [] b = ([b], []) := by
  unfold utf8Step utf8StepFresh
  rw [if_neg h1, if_neg h0]

theorem utf8Step_cont (p0 b : Nat) (p : List Nat) (hb : 0x80 ≤ b ∧ b ≤ 0xBF) :
    utf8Step (p0 :: p) b =
      (if (p0 :: p).length + 1 = utf8Need p0 then ([], [utf8DecodeSeq ((p0 :: p) ++ [b])])
       else ((p0 :: p) ++ [b], [])) := by
  simp only [utf8Step]
  rw [if_pos hb]

theorem utf8DecodeChunk_encodeChar (c : Char) :
    utf8DecodeChunk [] (utf8EncodeChar c) = ([], [c]) := by
  have hv := char_valid_nat c
  unfold utf8EncodeChar
  by_cases h1 : c.toNat < 0x80
  · rw [if_pos h1]
    show utf8DecodeChunk [] [c.toNat] = ([], [c])
    have hn : utf8Need c.toNat = 1 := by unfold utf8Need; rw [if_pos h1]
    simp [utf8DecodeChunk, utf8Step, utf8StepFresh, hn, Char.ofNat_toNat]
  · by_cases h2 : c.toNat < 0x800
    · rw [if_neg h1, if_pos h2]
      show utf8DecodeChunk [] [0xC0 + c.toNat / 64, 0x80 + c.toNat % 64] = ([], [c])
      have hn0 : utf8Need (0xC0 + c.toNat / 64) = 2 := by
        unfold utf8Need
        rw [if_neg (by omega), if_pos (by omega)]
      have hd : utf8DecodeSeq [0xC0 + c.toNat / 64, 0x80 + c.toNat % 64] = c := by
        unfold utf8DecodeSeq utf8Combine
        norm_num
        exact charOfNat_eq c _ (by omega)
      have hs0 : utf8Step [] (0xC0 + c.toNat / 64) = ([0xC0 + c.toNat / 64], []) :=
        utf8Step_fresh_lead _ (by rw [hn0]; omega) (by rw [hn0]; omega)
      have hs1 : utf8Step [0xC0 + c.toNat / 64] (0x80 + c.toNat % 64) =
          ([], [utf8DecodeSeq [0xC0 + c.toNat / 64, 0x80 + c.toNat % 64]]) := by
        rw [utf8Step_cont _ _ _ ⟨by omega, by omega⟩]
        rw [if_pos (by simp [hn0])]
        simp
      simp [utf8DecodeChunk, hs0, hs1, hd]
    · by_cases h3 : c.toNat < 0x10000
      · rw [if_neg h1, if_neg h2, if_pos h3]
        show utf8DecodeChunk []
          [0xE0 + c.toNat / 4096, 0x80 + c.toNat / 64 % 64, 0x80 + c.toNat % 64] = ([], [c])
        have hn0 : utf8Need (0xE0 + c.toNat / 4096) = 3 := by
          unfold utf8Need
          rw [if_neg (by omega), if_neg (by omega), if_pos (by omega)]
        have hd : utf8DecodeSeq [0xE0 + c.toNat / 4096, 0x80 + c.toNat / 64 % 64,
            0x80 + c.toNat % 64] = c := by
          unfold utf8DecodeSeq utf8Combine
          norm_num
          split
          · exact charOfNat_eq c _ (by omega)
          · exfalso; omega
        have hs0 : utf8Step [] (0xE0 + c.toNat / 4096) = ([0xE0 + c.toNat / 4096], []) :=
          utf8Step_fresh_lead _ (by rw [hn0]; omega) (by rw [hn0]; omega)
        have hs1 : utf8Step [0xE0 + c.toNat / 4096] (0x80 + c.toNat / 64 % 64) =
            ([0xE0 + c.toNat / 4096, 0x80 + c.toNat / 64 % 64], []) := by
          rw [utf8Step_cont _ _ _ ⟨by omega, by omega⟩]
          rw [if_neg (by simp [hn0])]
          simp
        have hs2 : utf8Step [0xE0 + c.toNat / 4096, 0x80 + c.toNat / 64 % 64]
            (0x80 + c.toNat % 64) =
            ([], [utf8DecodeSeq [0xE0 + c.toNat / 4096, 0x80 + c.toNat / 64 % 64,
              0x80 + c.toNat % 64]]) := by
          rw [utf8Step_cont _ _ _ ⟨by omega, by omega⟩]
          rw [if_pos (by simp [hn0])]
          simp
        simp [utf8DecodeChunk, hs0, hs1, hs2, hd]
      · rw [if_neg h1, if_neg h2, if_neg h3]
        show utf8DecodeChunk []
          [0xF0 + c.toNat / 262144, 0x80 + c.toNat / 4096 % 64, 0x80 + c.toNat / 64 % 64,
            0x80 + c.toNat % 64] = ([], [c])
        have hn0 : utf8Need (0xF0 + c.toNat / 262144) = 4 := by
          unfold utf8Need
          rw [if_neg (by omega), if_neg (by omega), if_neg (by omega), if_pos (by omega)]
        have hd : utf8DecodeSeq [0xF0 + c.toNat / 262144, 0x80 + c.toNat / 4096 % 64,
            0x80 + c.toNat / 64 % 64, 0x80 + c.toNat % 64] = c := by
          unfold utf8DecodeSeq utf8Combine
          norm_num
          split
          · exact charOfNat_eq c _ (by omega)
          · exfalso; omega
        have hs0 : utf8Step [] (0xF0 + c.toNat / 262144) = ([0xF0 + c.toNat / 262144], []) :=
          utf8Step_fresh_lead _ (by rw [hn0]; omega) (by rw [hn0]; omega)
        have hs1 : utf8Step [0xF0 + c.toNat / 262144] (0x80 + c.toNat / 4096 % 64) =
            ([0xF0 + c.toNat / 262144, 0x80 + c.toNat / 4096 % 64], []) := by
          rw [utf8Step_cont _ _ _ ⟨by omega, by omega⟩]
          rw [if_neg (by simp [hn0])]
          simp
        have hs2 : utf8Step [0xF0 + c.toNat / 262144, 0x80 + c.toNat / 4096 % 64]
            (0x80 + c.toNat / 64 % 64) =
            ([0xF0 + c.toNat / 262144, 0x80 + c.toNat / 4096 % 64, 0x80 + c.toNat / 64 % 64],
              []) := by
          rw [utf8Step_cont _ _ _ ⟨by omega, by omega⟩]
          rw [if_neg (by simp [hn0])]
          simp
        have hs3 : utf8Step [0xF0 + c.toNat / 262144, 0x80 + c.toNat / 4096 % 64,
            0x80 + c.toNat / 64 % 64] (0x80 + c.toNat % 64) =
            ([], [utf8DecodeSeq [0xF0 + c.toNat / 262144, 0x80 + c.toNat / 4096 % 64,
              0x80 + c.toNat / 64 % 64, 0x80 + c.toNat % 64]]) := by
          rw [utf8Step_cont _ _ _ ⟨by omega, by omega⟩]
          rw [if_pos (by simp [hn0])]
          simp
        simp [utf8DecodeChunk, hs0, hs1, hs2, hs3, hd]

theorem utf8DecodeChunk_encode (s : List Char) :
    utf8DecodeChunk [] (utf8Encode s) = ([], s) := by
  induction s with
  | nil => simp [utf8Encode, utf8DecodeChunk]
  | cons c cs ih =>
    have h : utf8Encode (c :: cs) = utf8EncodeChar c ++ utf8Encode cs := by
      simp [utf8Encode]
    rw [h, utf8DecodeChunk_append, utf8DecodeChunk_encodeChar c]
    simp [ih]

theorem splitOnNl_ne_nil (s : List Char) : splitOnNl s ≠ [] := by
  induction s with
  | nil => simp [splitOnNl]
  | cons c rest ih =>
    by_cases h : c = '\n'
    · simp [splitOnNl, h]
    · simp only [splitOnNl, if_neg h]
      cases hs : splitOnNl rest with
      | nil => simp [consFirst]
      | cons l ls => simp [consFirst]

theorem splitOnNl_of_no_nl (s : List Char) (h : '\n' ∉ s) : splitOnNl s = [s] := by
  induction s with
  | nil => simp [splitOnNl]
  | cons c rest ih =>
    have hc : c ≠ '\n' := fun hh => h (hh ▸ List.mem_cons_self c rest)
    have hr : '\n' ∉ rest := fun hh => h (List.mem_cons_of_mem c hh)
    simp [splitOnNl, hc, ih hr, consFirst]

theorem splitOnNl_append_nl (a z : List Char) (h : '\n' ∉ a) :
    splitOnNl (a ++ '\n' :: z) = a :: splitOnNl z := by
  induction a with
  | nil => simp [splitOnNl]
  | cons c a' ih =>
    have hc : c ≠ '\n' := fun hh => h (hh ▸ List.mem_cons_self c a')
    have ha : '\n' ∉ a' := fun hh => h (List.mem_cons_of_mem c hh)
    simp [splitOnNl, hc, ih ha, consFirst]

theorem lineFold_no_nl (a : List Char) (buf : List Char) (h : '\n' ∉ a) :
    lineFold buf a = ([], buf ++ a) := by
  induction a generalizing buf with
  | nil => simp [lineFold]
  | cons c a' ih =>
    have hc : c ≠ '\n' := fun hh => h (hh ▸ List.mem_cons_self c a')
    have ha : '\n' ∉ a' := fun hh => h (List.mem_cons_of_mem c hh)
    simp [lineFold, hc, ih _ ha]

theorem lineFold_append (t1 t2 : List Char) (buf : List Char) :
    lineFold buf (t1 ++ t2) =
      ((lineFold buf t1).1 ++ (lineFold (lineFold buf t1).2 t2).1,
        (lineFold (lineFold buf t1).2 t2).2) := by
  induction t1 generalizing buf with
  | nil => simp [lineFold]
  | cons c cs ih =>
    by_cases h : c = '\n'
    · simp [lineFold, h, ih]
    · simp [lineFold, h, ih]

/-- The bridge: the source's per-chunk `split`/`pop` computes exactly
`lineFold`. -/
theorem splitOnNl_eq_lineFold (t buf : List Char) (h : '\n' ∉ buf) :
    splitOnNl (buf ++ t) = (lineFold buf t).1 ++ [(lineFold buf t).2] := by
  induction t generalizing buf with
  | nil => simp [lineFold, splitOnNl_of_no_nl _ h]
  | cons c cs ih =>
    by_cases hc : c = '\n'
    · subst hc
      rw [splitOnNl_append_nl _ _ h]
      have := ih [] (by simp)
      simp only [List.nil_append] at this
      simp [lineFold, this]
    · have : buf ++ c :: cs = (buf ++ [c]) ++ cs := by simp
      rw [this, ih (buf ++ [c]) (by
        intro hm
        rcases List.mem_append.1 hm with hm | hm
        · exact h hm
        · simp at hm; exact hc hm.symm)]
      simp [lineFold, hc]

theorem lineFold_buf_no_nl (t buf : List Char) (h : '\n' ∉ buf) :
    '\n' ∉ (lineFold buf t).2 := by
  induction t generalizing buf with
  | nil => simpa [lineFold]
  | cons c cs ih =>
    by_cases hc : c = '\n'
    · simp only [lineFold, if_pos hc]
      exact ih [] (by simp)
    · simp only [lineFold, if_neg hc]
      exact ih (buf ++ [c]) (by
        intro hm
        rcases List.mem_append.1 hm with hm | hm
        · exact h hm
        · simp at hm; exact hc hm.symm)

-- bridge between the split/pop formulation and the char-fold formulation
theorem processChunk_eq_lineFold (st : DecoderState) (chunk : List Nat)
    (h : '\n' ∉ st.buffer) :
    processChunk st chunk =
      (⟨(utf8DecodeChunk st.pending chunk).1,
          (lineFold st.buffer (utf8DecodeChunk st.pending chunk).2).2⟩,
        (lineFold st.buffer (utf8DecodeChunk st.pending chunk).2).1.filterMap processLine) := by
  show (DecoderState.mk (utf8DecodeChunk st.pending chunk).1
      ((splitOnNl (st.buffer ++ (utf8DecodeChunk st.pending chunk).2)).getLast?.getD []),
    (splitOnNl (st.buffer ++ (utf8DecodeChunk st.pending chunk).2)).dropLast.filterMap
      processLine) =
    (DecoderState.mk (utf8DecodeChunk st.pending chunk).1
        ((lineFold st.buffer (utf8DecodeChunk st.pending chunk).2).2),
      (lineFold st.buffer (utf8DecodeChunk st.pending chunk).2).1.filterMap processLine)
  rw [splitOnNl_eq_lineFold _ _ h]
  simp

theorem processChunk_buffer_no_nl (st : DecoderState) (chunk : List Nat)
    (h : '\n' ∉ st.buffer) : '\n' ∉ (processChunk st chunk).1.buffer := by
  rw [processChunk_eq_lineFold st chunk h]
  exact lineFold_buf_no_nl _ _ h

theorem processChunk_append (st : DecoderState) (c1 c2 : List Nat)
    (h : '\n' ∉ st.buffer) :
    processChunk st (c1 ++ c2) =
      ((processChunk (processChunk st c1).1 c2).1,
        (processChunk st c1).2 ++ (processChunk (processChunk st c1).1 c2).2) := by
  have hb1 : '\n' ∉ (processChunk st c1).1.buffer := processChunk_buffer_no_nl st c1 h
  rw [processChunk_eq_lineFold (processChunk st c1).1 c2 hb1,
    processChunk_eq_lineFold st c1 h, processChunk_eq_lineFold st (c1 ++ c2) h]
  simp only
  rw [utf8DecodeChunk_append st.pending c1 c2]
  simp only [lineFold_append]
  simp [List.filterMap_append]

theorem runChunks_eq_flatten (chunks : List (List Nat)) : ∀ st : DecoderState,
    '\n' ∉ st.buffer → runChunks st chunks = processChunk st chunks.flatten := by
  induction chunks with
  | nil =>
    intro st h
    show (st, []) = processChunk st []
    rw [processChunk_eq_lineFold st [] h]
    show (st, []) = (⟨st.pending, (lineFold st.buffer []).2⟩, _)
    simp [lineFold, utf8DecodeChunk]
  | cons ch rest ih =>
    intro st h
    show (let p := processChunk st ch
      let r := runChunks p.1 rest
      (r.1, p.2 ++ r.2)) = _
    simp only [List.flatten_cons]
    rw [processChunk_append st ch rest.flatten h,
      ih (processChunk st ch).1 (processChunk_buffer_no_nl st ch h)]

theorem chatStreamEvents_eq_text (chunks : List (List Nat)) (t : List Char)
    (h : chunks.flatten = utf8Encode t) :
    chatStreamEvents chunks = decodeTextEvents t := by
  unfold chatStreamEvents
  rw [runChunks_eq_flatten chunks ⟨[], []⟩ (by simp), h,
    processChunk_eq_lineFold _ _ (by simp)]
  show (lineFold [] (utf8DecodeChunk [] (utf8Encode t)).2).1.filterMap processLine = _
  rw [utf8DecodeChunk_encode t]
  rfl

-- frames: `data: ⟨json⟩\n` records
theorem processLine_data (j : List Char) : processLine (dataTag ++ j) = jsonParse j := by
  unfold processLine
  rw [if_pos (by simp [dataTag, List.take])]
  simp [dataTag, List.drop]

theorem lineFold_line (a t : List Char) (h : '\n' ∉ a) :
    lineFold [] ((a ++ ['\n']) ++ t) = (a :: (lineFold [] t).1, (lineFold [] t).2) := by
  have h2 : (a ++ ['\n']) ++ t = a ++ '\n' :: t := by simp
  rw [h2, lineFold_append a ('\n' :: t) [], lineFold_no_nl a [] h]
  simp [lineFold]

theorem dataTag_no_nl : '\n' ∉ dataTag := by decide

theorem decodeTextEvents_records (recs : List (List Char)) (oes : List (Option Json))
    (tail : List Char) (h : List.Forall₂ SSERecordOpt recs oes) (ht : '\n' ∉ tail) :
    (lineFold [] (recs.flatten ++ tail)).1.filterMap processLine = oes.filterMap id ∧
      (lineFold [] (recs.flatten ++ tail)).2 = tail := by
  induction h with
  | nil =>
    rw [List.flatten_nil, List.nil_append, lineFold_no_nl tail [] ht]
    simp
  | @cons r oe recs2 oes2 hre hrest ih =>
    obtain ⟨j, rfl, hjnl, hj⟩ := hre
    have hline : '\n' ∉ dataTag ++ j := by
      intro hmem
      rcases List.mem_append.1 hmem with hm | hm
      · exact dataTag_no_nl hm
      · exact hjnl hm
    have hflat : ((dataTag ++ j ++ ['\n']) :: recs2).flatten ++ tail =
        ((dataTag ++ j) ++ ['\n']) ++ (recs2.flatten ++ tail) := by simp
    rw [hflat, lineFold_line (dataTag ++ j) _ hline]
    refine ⟨?_, ih.2⟩
    rw [List.filterMap_cons, List.filterMap_cons, processLine_data, hj]
    cases oe with
    | none => exact ih.1
    | some e => rw [ih.1]; rfl

theorem streamBody_none (chunks : List (List Nat)) : ∀ st readFails,
    (streamBody st none chunks readFails).1 = (runChunks st chunks).2 := by
  induction chunks with
  | nil => intro st readFails; rfl
  | cons ch rest ih =>
    intro st readFails
    show ((processChunk st ch).2 ++ (streamBody (processChunk st ch).1 none rest readFails).1,
      _).1 = ((runChunks (processChunk st ch).1 rest).1,
        (processChunk st ch).2 ++ (runChunks (processChunk st ch).1 rest).2).2
    simp [ih]

theorem streamBody_take (chunks : List (List Nat)) : ∀ st n readFails,
    (streamBody st (some n) chunks readFails).1 = ((runChunks st chunks).2).take n := by
  induction chunks with
  | nil =>
    intro st n readFails
    show ([] : List Json) = List.take n (runChunks st []).2
    simp [runChunks]
  | cons ch rest ih =>
    intro st n readFails
    show (if n ≤ (processChunk st ch).2.length then ((processChunk st ch).2.take n, _)
      else ((processChunk st ch).2 ++
        (streamBody (processChunk st ch).1 (some (n - (processChunk st ch).2.length)) rest
          readFails).1, _)).1 =
      ((processChunk st ch).2 ++ (runChunks (processChunk st ch).1 rest).2).take n
    rw [List.take_append_eq_append_take]
    by_cases hn : n ≤ (processChunk st ch).2.length
    · rw [if_pos hn]
      have hz : n - (processChunk st ch).2.length = 0 := by omega
      rw [hz]
      simp
    · rw [if_neg hn]
      have hx : (processChunk st ch).2.take n = (processChunk st ch).2 :=
        List.take_of_length_le (by omega)
      simp [hx, ih]

-- shared helpers for the record-level claims
theorem forall₂_sseRecordOpt (recs : List (List Char)) (es : List Json)
    (h : List.Forall₂ SSERecord recs es) :
    List.Forall₂ SSERecordOpt recs (es.map some) := by
  induction h with
  | nil => exact List.Forall₂.nil
  | cons hre _ ih =>
    obtain ⟨j, h1, h2, h3⟩ := hre
    exact List.Forall₂.cons ⟨j, h1, h2, h3⟩ ih

theorem filterMap_id_map_some (es : List Json) : (es.map some).filterMap id = es := by
  induction es with
  | nil => rfl
  | cons e es ih => simp [ih]

theorem chatStreamEvents_records (recs : List (List Char)) (oes : List (Option Json))
    (tail : List Char) (chunks : List (List Nat))
    (h : List.Forall₂ SSERecordOpt recs oes) (ht : '\n' ∉ tail)
    (hbytes : chunks.flatten = utf8Encode (recs.flatten ++ tail)) :
    chatStreamEvents chunks = oes.filterMap id := by
  rw [chatStreamEvents_eq_text chunks _ hbytes]
  exact (decodeTextEvents_records recs oes tail h ht).1

/-- C1: for every byte stream composed solely of well-formed
`data: ⟨json⟩\n` records — under any chunking of the bytes — the
`chatStream` decode loop emits exactly one event per record, in the exact
order the records appear, with no record merged or split
(client.ts:292-314). -/
theorem chatStream_one_event_per_record (recs : List (List Char)) (es : List Json)
    (chunks : List (List Nat))
    (hrec : List.Forall₂ SSERecord recs es)
    (hbytes : chunks.flatten = utf8Encode recs.flatten) :
    chatStreamEvents chunks = es := by
  rw [← filterMap_id_map_some es]
  exact chatStreamEvents_records recs (es.map some) [] chunks
    (forall₂_sseRecordOpt recs es hrec) (by simp) (by simpa using hbytes)

theorem chatStream_one_event_per_record_witness :
    chatStreamEvents [utf8Encode ("data: 1\ndata: 2\n".toList)] =
      [Json.num 1, Json.num 2] := by
  apply chatStream_one_event_per_record ["data: 1\n".toList, "data: 2\n".toList]
  · exact List.Forall₂.cons ⟨"1".toList, by decide, by decide, by rfl⟩
      (List.Forall₂.cons ⟨"2".toList, by decide, by decide, by rfl⟩ List.Forall₂.nil)
  · rfl

theorem forall₂_sseOpt_append (recs1 recs2 : List (List Char))
    (oes1 oes2 : List (Option Json))
    (h1 : List.Forall₂ SSERecordOpt recs1 oes1)
    (h2 : List.Forall₂ SSERecordOpt recs2 oes2) :
    List.Forall₂ SSERecordOpt (recs1 ++ recs2) (oes1 ++ oes2) := by
  induction h1 with
  | nil => simpa using h2
  | cons hre _ ih => exact List.Forall₂.cons hre ih

/-- C2: a record whose payload after the `data: ` marker is not parseable
JSON is dropped from the output without terminating decoding — the model
of the per-line `try/catch` (client.ts:303-308) returns `none` instead of
raising — and every well-formed record before and after it is still
emitted. -/
theorem chatStream_drops_malformed_record (recs1 recs2 : List (List Char))
    (es1 es2 : List Json) (jbad : List Char) (chunks : List (List Nat))
    (h1 : List.Forall₂ SSERecord recs1 es1) (h2 : List.Forall₂ SSERecord recs2 es2)
    (hnl : '\n' ∉ jbad) (hbad : jsonParse jbad = none)
    (hbytes : chunks.flatten =
      utf8Encode ((recs1 ++ (dataTag ++ jbad ++ ['\n']) :: recs2).flatten)) :
    chatStreamEvents chunks = es1 ++ es2 := by
  have hall : List.Forall₂ SSERecordOpt (recs1 ++ (dataTag ++ jbad ++ ['\n']) :: recs2)
      (es1.map some ++ none :: es2.map some) :=
    forall₂_sseOpt_append _ _ _ _ (forall₂_sseRecordOpt recs1 es1 h1)
      (List.Forall₂.cons ⟨jbad, rfl, hnl, hbad⟩ (forall₂_sseRecordOpt recs2 es2 h2))
  rw [chatStreamEvents_records _ _ [] chunks hall (by simp) (by simpa using hbytes)]
  simp [List.filterMap_append, filterMap_id_map_some]

theorem chatStream_drops_malformed_record_witness :
    chatStreamEvents [utf8Encode ("data: 1\ndata: nope\ndata: 2\n".toList)] =
      [Json.num 1, Json.num 2] := by
  apply chatStream_drops_malformed_record ["data: 1\n".toList] ["data: 2\n".toList]
    [Json.num 1] [Json.num 2] "nope".toList
  · exact List.Forall₂.cons ⟨"1".toList, by decide, by decide, by rfl⟩ List.Forall₂.nil
  · exact List.Forall₂.cons ⟨"2".toList, by decide, by decide, by rfl⟩ List.Forall₂.nil
  · decide
  · rfl
  · rfl

/-- C3: a well-formed record split into two chunk deliveries at any byte
boundary — including mid-line and mid-UTF-8-character — decodes to the
same single event as the unsplit delivery, because the `TextDecoder` is
used in streaming mode and the buffer carries partial lines across
chunks (client.ts:293-299). -/
theorem chatStream_chunk_split_invariant (j : List Char) (e : Json)
    (b1 b2 : List Nat) (hnl : '\n' ∉ j) (hp : jsonParse j = some e)
    (hsplit : b1 ++ b2 = utf8Encode (dataTag ++ j ++ ['\n'])) :
    chatStreamEvents [b1, b2] = [e] ∧
      chatStreamEvents [utf8Encode (dataTag ++ j ++ ['\n'])] = [e] := by
  have hrec : List.Forall₂ SSERecordOpt [dataTag ++ j ++ ['\n']] [some e] :=
    List.Forall₂.cons ⟨j, rfl, hnl, hp⟩ List.Forall₂.nil
  constructor
  · exact chatStreamEvents_records _ _ [] [b1, b2] hrec (by simp)
      (by simpa using hsplit)
  · exact chatStreamEvents_records _ _ [] [utf8Encode (dataTag ++ j ++ ['\n'])] hrec
      (by simp) (by simp)

theorem chatStream_chunk_split_invariant_witness :
    chatStreamEvents [[100, 97, 116, 97, 58, 32, 34, 195], [169, 34, 10]] =
      [Json.str ['é']] :=
  (chatStream_chunk_split_invariant "\"é\"".toList (Json.str ['é'])
    [100, 97, 116, 97, 58, 32, 34, 195] [169, 34, 10]
    (by decide) (by rfl) (by rfl)).1

/-- C4: when the source signals end-of-stream, the residual unterminated
buffer content is discarded and never emitted (`if (done) break`,
client.ts:295, with no flush of `buffer`): a final record lacking its
trailing newline — even one with a perfectly parseable payload — is
silently lost. -/
theorem chatStream_discards_unterminated_tail (recs : List (List Char))
    (es : List Json) (tail : List Char) (chunks : List (List Nat))
    (hrec : List.Forall₂ SSERecord recs es) (ht : '\n' ∉ tail)
    (hbytes : chunks.flatten = utf8Encode (recs.flatten ++ tail)) :
    chatStreamEvents chunks = es := by
  rw [← filterMap_id_map_some es]
  exact chatStreamEvents_records recs (es.map some) tail chunks
    (forall₂_sseRecordOpt recs es hrec) ht hbytes

theorem chatStream_discards_unterminated_tail_witness :
    chatStreamEvents [utf8Encode ("data: 1\ndata: 2".toList)] = [Json.num 1] := by
  apply chatStream_discards_unterminated_tail ["data: 1\n".toList] [Json.num 1]
    "data: 2".toList
  · exact List.Forall₂.cons ⟨"1".toList, by decide, by decide, by rfl⟩ List.Forall₂.nil
  · decide
  · rfl

/-- C6: decoding is a left inverse of encoding — for every event value,
framing its JSON serialization as `data: ⟨json⟩\n` and running the
decoder on that line yields exactly that one event back. -/
theorem chatStream_decode_encode_roundtrip (e : Json) :
    chatStreamEvents [utf8Encode (dataTag ++ jsonStringify e ++ ['\n'])] = [e] :=
  chatStreamEvents_records [dataTag ++ jsonStringify e ++ ['\n']] [some e] []
    [utf8Encode (dataTag ++ jsonStringify e ++ ['\n'])]
    (List.Forall₂.cons ⟨jsonStringify e, rfl, jsonStringify_no_nl e,
      jsonParse_stringify e⟩ List.Forall₂.nil)
    (by simp) (by simp)

/-- C5: a `chatStream` call that completes normally resolves to a
`StreamResult` whose identifiers are the `X-Conversation-Id` and
`X-Message-Id` response headers captured from the response (each `none`
when absent, client.ts:281-282,316); in particular headers `c9`/`m9`
with an empty body give `{conversationId: c9, messageId: m9}` and zero
events. -/
theorem chatStream_result_from_headers :
    (∀ (tokenValid : Bool) (resp : StreamResponse) (errText : List Char)
        (chunks : List (List Nat)), tokenValid = true → resp.ok = true →
        resp.body = some chunks →
        chatStreamModel tokenValid resp errText =
          .success (chatStreamEvents chunks)
            ⟨headersGet resp.headers xConversationIdHeader,
              headersGet resp.headers xMessageIdHeader⟩) ∧
      chatStreamModel true
        ⟨true, 200, [(xConversationIdHeader, "c9".toList), (xMessageIdHeader, "m9".toList)],
          some []⟩ [] =
        .success [] ⟨some "c9".toList, some "m9".toList⟩ := by
  constructor
  · intro tokenValid resp errText chunks htv hok hbody
    subst htv
    unfold chatStreamModel
    rw [if_neg (by simp), if_neg (by simp [hok]), hbody]
  · rfl

theorem chatStream_result_from_headers_witness :
    chatStreamModel true
      ⟨true, 200, [(xConversationIdHeader, "c1".toList)], some []⟩ [] =
      .success (chatStreamEvents [])
        ⟨headersGet [(xConversationIdHeader, "c1".toList)] xConversationIdHeader,
          headersGet [(xConversationIdHeader, "c1".toList)] xMessageIdHeader⟩ :=
  chatStream_result_from_headers.1 true
    ⟨true, 200, [(xConversationIdHeader, "c1".toList)], some []⟩ [] [] rfl rfl rfl

/-- C7: `getBookPresentations` validates the ISBN list length before
resolving configuration or contacting the transport (client.ts:444-449):
an empty or over-100-element list fails locally with a `HalapiError` and
no request is sent; for a configured client and a list of length 1..100
the validation passes and the request goes out. -/
theorem getBookPresentations_length_validation (isbns : List (List Char))
    (tokenValid : Bool) (resp : SimpleResponse) :
    ((isbns = [] ∨ 100 < isbns.length) →
        ∃ e, getBookPresentations isbns tokenValid resp = .localError e) ∧
      (tokenValid = true → 1 ≤ isbns.length → isbns.length ≤ 100 →
        ∃ r, getBookPresentations isbns tokenValid resp = .sent r) := by
  constructor
  · rintro (rfl | hlen)
    · exact ⟨_, rfl⟩
    · unfold getBookPresentations
      by_cases hemp : isbns.isEmpty
      · exact ⟨_, by rw [if_pos hemp]⟩
      · exact ⟨_, by rw [if_neg hemp, if_pos hlen]⟩
  · intro htv h1 h100
    subst htv
    unfold getBookPresentations
    rw [if_neg (by
        intro hc
        rw [List.isEmpty_iff] at hc
        subst hc
        simp at h1),
      if_neg (by omega), if_neg (by simp)]
    exact ⟨_, rfl⟩

theorem getBookPresentations_length_validation_witness :
    (∃ e, getBookPresentations [] true ⟨true, 200, []⟩ = .localError e) ∧
      (∃ e, getBookPresentations (List.replicate 101 ['1']) true ⟨true, 200, []⟩ =
        .localError e) ∧
      ∃ r, getBookPresentations [['1']] true ⟨true, 200, []⟩ = .sent r :=
  ⟨(getBookPresentations_length_validation [] true ⟨true, 200, []⟩).1 (Or.inl rfl),
    (getBookPresentations_length_validation (List.replicate 101 ['1']) true
      ⟨true, 200, []⟩).1 (Or.inr (by simp)),
    (getBookPresentations_length_validation [['1']] true ⟨true, 200, []⟩).2 rfl
      (by decide) (by decide)⟩

/-- C8 (counterexample): not every error a client operation raises is a
`HalapiError`.  `getConversations` on a 2xx response whose non-blank body
fails to parse throws the plain `Error` of client.ts:364: the raised
error is not a `HalapiError`. -/
theorem getConversations_raises_generic_error :
    ∃ err, getConversations true ⟨true, 200, "nope".toList⟩ [] = .error err ∧
      err.isHalapi = false :=
  ⟨.generic ("Invalid JSON response from API".toList), rfl, rfl⟩

/-- C8 (amended): every error an operation raises is a `HalapiError` —
carrying a message and, on HTTP failures, the status code — except that
a successful (2xx) response whose body fails JSON parsing surfaces as a
plain error (the explicit `throw new Error` of client.ts:364,391 and the
`SyntaxError` of a failing `response.json()`); `chatStream`'s failures
(`ChatStreamOutcome.failure`) carry a `HalapiError` by construction, and
per-record parse failures inside the stream are invisible to the caller
(log-only, see the malformed-record theorem). -/
theorem client_errors_halapi_except_body_parse :
    (∀ tv resp now err, getConversations tv resp now = .error err →
        err.isHalapi = true ∨ (resp.ok = true ∧ jsonParse resp.bodyText = none)) ∧
      (∀ tv resp err, getConversation tv resp = .error err →
        err.isHalapi = true ∨ (resp.ok = true ∧ jsonParse resp.bodyText = none)) ∧
      (∀ tv resp err, getBookArtifacts tv resp = .error err →
        err.isHalapi = true ∨ (resp.ok = true ∧ jsonParse resp.bodyText = none)) ∧
      (∀ tv resp err, getMusicArtifacts tv resp = .error err →
        err.isHalapi = true ∨ (resp.ok = true ∧ jsonParse resp.bodyText = none)) ∧
      ∀ isbns tv resp err, getBookPresentations isbns tv resp = .sent (.error err) →
        err.isHalapi = true ∨ (resp.ok = true ∧ jsonParse resp.bodyText = none) := by
  refine ⟨?_, ?_, ?_, ?_, ?_⟩
  · intro tv resp now err h
    unfold getConversations at h
    split_ifs at h with htv hok hblank
    all_goals
      first
      | (injection h with h2
         subst h2
         exact Or.inl rfl)
      | (revert h
         cases hp : jsonParse resp.bodyText with
         | some v => intro h; simp at h
         | none =>
           intro h
           exact Or.inr ⟨by simpa using hok, rfl⟩)
      | ((simp at h); done)
  · intro tv resp err h
    unfold getConversation at h
    split_ifs at h with htv hok
    all_goals
      first
      | (injection h with h2
         subst h2
         exact Or.inl rfl)
      | (revert h
         cases hp : jsonParse resp.bodyText with
         | some v => intro h; simp at h
         | none =>
           intro h
           exact Or.inr ⟨by simpa using hok, rfl⟩)
  · intro tv resp err h
    unfold getBookArtifacts at h
    split_ifs at h with htv hok
    all_goals
      first
      | (injection h with h2
         subst h2
         exact Or.inl rfl)
      | (revert h
         cases hp : jsonParse resp.bodyText with
         | some v => intro h; simp at h
         | none =>
           intro h
           exact Or.inr ⟨by simpa using hok, rfl⟩)
  · intro tv resp err h
    unfold getMusicArtifacts at h
    split_ifs at h with htv hok
    all_goals
      first
      | (injection h with h2
         subst h2
         exact Or.inl rfl)
      | (revert h
         cases hp : jsonParse resp.bodyText with
         | some v => intro h; simp at h
         | none =>
           intro h
           exact Or.inr ⟨by simpa using hok, rfl⟩)
  · intro isbns tv resp err h
    unfold getBookPresentations at h
    split_ifs at h with hemp hlen htv hok
    all_goals
      first
      | (simp only [AccessorOutcome.sent.injEq] at h
         injection h with h2
         subst h2
         exact Or.inl rfl)
      | (simp only [AccessorOutcome.sent.injEq] at h
         revert h
         cases hp : jsonParse resp.bodyText with
         | some v => intro h; simp at h
         | none =>
           intro h
           injection h with h2
           subst h2
           exact Or.inr ⟨by simpa using hok, rfl⟩)

theorem client_errors_halapi_except_body_parse_witness :
    (ClientError.halapi (handleErrorResponse 500 []
        ("Failed to fetch book artifacts".toList))).isHalapi = true ∨
      ((⟨false, 500, []⟩ : SimpleResponse).ok = true ∧ jsonParse [] = none) :=
  client_errors_halapi_except_body_parse.2.2.1 true ⟨false, 500, []⟩
    (.halapi (handleErrorResponse 500 [] ("Failed to fetch book artifacts".toList))) rfl

/-- C9: on every exit path of the decode loop — normal end-of-stream,
a read that rejects (error or cancellation), or the consumer abandoning
iteration after `n` events — the `finally` of client.ts:312-314 releases
the reader lock exactly once, and the events delivered to the consumer
are exactly the first `n` (no event is emitted after early
termination). -/
theorem chatStream_releases_lock_once (chunks : List (List Nat)) (readFails : Bool)
    (limit : Option Nat) :
    (runStream chunks readFails limit).2.1 = 1 ∧
      (runStream chunks readFails limit).1 =
        (match limit with
         | none => chatStreamEvents chunks
         | some n => (chatStreamEvents chunks).take n) := by
  refine ⟨rfl, ?_⟩
  cases limit with
  | none => exact streamBody_none chunks ⟨[], []⟩ readFails
  | some n => exact streamBody_take chunks ⟨[], []⟩ n readFails

/-- C10: the request body `chatStream` serializes (client.ts:268-273)
carries `externalUserId = 'sdk-user'` when the option is omitted, and
the provided value unchanged otherwise. -/
theorem chatStream_externalUserId_default (opts : ChatStreamOptions) :
    (opts.externalUserId = none →
        jsonField (chatRequestJson opts) ("externalUserId".toList) =
          some (.str "sdk-user".toList)) ∧
      ∀ v, opts.externalUserId = some v →
        jsonField (chatRequestJson opts) ("externalUserId".toList) = some (.str v) := by
  constructor
  · intro h
    cases hc : opts.conversationId <;>
      simp [chatRequestJson, jsonField, h, hc, List.find?]
  · intro v h
    cases hc : opts.conversationId <;>
      simp [chatRequestJson, jsonField, h, hc, List.find?]

theorem chatStream_externalUserId_default_witness :
    jsonField (chatRequestJson ⟨"hi".toList, none, none, none⟩)
        ("externalUserId".toList) = some (.str "sdk-user".toList) :=
  (chatStream_externalUserId_default ⟨"hi".toList, none, none, none⟩).1 rfl
